import Mathlib

/-!
# dockeroo `freeze`: the signal-wait program

The repository holds two copies of one C program,
`src/dockeroo/freeze/freeze.c` and `src/dockeroo/docker/freeze/freeze.c`.
Each has a handler `catcher` and a `main` that installs `catcher` for SIGINT and
SIGTERM and then waits in `sigsuspend`.

The embedding has two layers.

* The program text is a tree of operating-system calls (`Prog`): every call node
  carries the arguments the source passes and a continuation that receives the
  value the call returns.
* The process is a state machine (`State`, `step`) that runs such a program
  against events chosen by the environment.  `main` is either in user code,
  about to perform the operation at the head of what is left of it, or inside
  a call, waiting for it to return.  The events are: `proceed` (`main`, in user
  code, performs its next operation or enters its next call), `returns r` (the
  call `main` is in returns `r`), `deliver` (a signal is delivered), `run` (the
  innermost active handler executes its next operation), and `result r`, which
  bundles the steps of `main` around one call: `main` runs up to its next call,
  the call returns `r`, and `main` runs on until it is inside the call after.

Signal handling follows POSIX `sigaction`.  A delivered signal that is not
blocked and has a handler installed enters the handler; while the handler is
active the signal mask is the mask at delivery, plus `sa_mask`, plus the signal
itself unless `SA_NODEFER` is set, and the mask put back when the handler
returns is the one in force before delivery (for a handler entered out of
`sigsuspend`, the mask from before the `sigsuspend` call).  A delivered signal
with no handler installed takes its default action: it kills the process, which
then has no exit status, or it leaves the process as it is.  Entering a handler
and executing its body are two events, and so are the return of a call and the
next operation of `main`: the environment may deliver a signal in between
whenever the mask lets it through.  Every external call is one operation; `exit`
ends the process at once.

The process is taken to start with every signal at its default disposition and
with a mask `mask0` that the kernel can hold (SIGKILL is never in it).
-/

namespace dockeroo

/-! ## Data from `<signal.h>` -/

/-- A `sigset_t`: the signal numbers in the set. -/
abbrev sigset_t := List Int

/-- Number of the interactive-interrupt signal (`<signal.h>`). -/
def SIGINT : Int := 2

/-- Number of the generic-termination signal (`<signal.h>`). -/
def SIGTERM : Int := 15

/-- Flag bit of `sa_flags` (Linux value): do not block the signal while its
handler runs.  The program sets no flag, so only the fact that 0 has no bit set
is used. -/
def SA_NODEFER : Nat := 0x40000000

/-- Flag bit of `sa_flags` (Linux value): reset the disposition to the default on
handler entry. -/
def SA_RESETHAND : Nat := 0x80000000

/-- The functions of the program whose address is taken as a signal handler. -/
inductive HandlerFn where
  | catcher
deriving DecidableEq, Repr

/-- The fields of `struct sigaction` the program writes. -/
structure SigAction where
  sa_handler : HandlerFn
  sa_mask : sigset_t
  sa_flags : Int
deriving DecidableEq, Repr

/-- The two `sigset_t` objects of `main` that `sigemptyset` is applied to. -/
inductive SetVar where
  | act_sa_mask
  | set
deriving DecidableEq, Repr

/-! ## Programs as trees of external operations -/

/-- One external operation, with the arguments it was called with.  `write`
stands for any output operation (standard stream, file, socket). -/
inductive Op where
  | sigemptyset (dst : SetVar)
  | sigaction (signum : Int) (act : SigAction)
  | sigsuspend (mask : sigset_t)
  | exit (status : Int)
  | write (fd : Int) (bytes : List Nat)
deriving DecidableEq, Repr

/-- Program text.  `sigemptyset` hands the set it stored to the continuation; the
other calls hand over their `int` result.  `sigaction` is always called with a
null third argument in the source, so the old action is never read.  `done` is
the closing brace of a function reached without a `return`. -/
inductive Prog where
  | sigemptyset (dst : SetVar) (k : sigset_t → Prog)
  | sigaction (signum : Int) (act : SigAction) (k : Int → Prog)
  | sigsuspend (mask : sigset_t) (k : Int → Prog)
  | write (fd : Int) (bytes : List Nat) (k : Int → Prog)
  | exit (status : Int)
  | done

/-- A translation unit: `main` and the body of each handler function. -/
structure Program where
  main : Prog
  fn : HandlerFn → Int → Prog

/-! ## The two source files -/

namespace freeze

/-- `void catcher(int signum) { exit(0); }` of `src/dockeroo/freeze/freeze.c`. -/
def catcher (_signum : Int) : Prog :=
  .exit 0

/-- `main` of `src/dockeroo/freeze/freeze.c`.  The condition
`sigaction(SIGINT, ..) != 0 || sigaction(SIGTERM, ..) != 0` is short-circuit:
the second call is made only when the first returned 0. -/
def main : Prog :=
  .sigemptyset .act_sa_mask fun sa_mask =>          -- sigemptyset(&act.sa_mask);
  let sa_flags : Int := 0                           -- act.sa_flags   = 0;
  let sa_handler := HandlerFn.catcher               -- act.sa_handler = catcher;
  let act : SigAction := { sa_handler := sa_handler, sa_mask := sa_mask, sa_flags := sa_flags }
  .sigaction SIGINT act fun r1 =>                   -- if (sigaction(SIGINT,  &act, NULL) != 0 ||
  if r1 ≠ 0 then .exit 1 else
  .sigaction SIGTERM act fun r2 =>                  --     sigaction(SIGTERM, &act, NULL) != 0)
  if r2 ≠ 0 then .exit 1 else                       --     exit(1);
  .sigemptyset .set fun set =>                      -- sigemptyset(&set);
  .sigsuspend set fun r =>                          -- if (sigsuspend(&set) == -1)
  if r = -1 then .exit 0 else                       --     exit(0);
  .done                                             -- }

/-- The program of `src/dockeroo/freeze/freeze.c`. -/
def program : Program :=
  { main := main, fn := fun h => match h with | .catcher => catcher }

end freeze

namespace docker.freeze

/-- `void catcher(int signum) { exit(0); }` of
`src/dockeroo/docker/freeze/freeze.c`. -/
def catcher (_signum : Int) : Prog :=
  .exit 0

/-- `main` of `src/dockeroo/docker/freeze/freeze.c` (lines 29 to 47). -/
def main : Prog :=
  .sigemptyset .act_sa_mask fun sa_mask =>          -- sigemptyset(&act.sa_mask);
  let sa_flags : Int := 0                           -- act.sa_flags   = 0;
  let sa_handler := HandlerFn.catcher               -- act.sa_handler = catcher;
  let act : SigAction := { sa_handler := sa_handler, sa_mask := sa_mask, sa_flags := sa_flags }
  .sigaction SIGINT act fun r1 =>                   -- if (sigaction(SIGINT,  &act, NULL) != 0 ||
  if r1 ≠ 0 then .exit 1 else
  .sigaction SIGTERM act fun r2 =>                  --     sigaction(SIGTERM, &act, NULL) != 0)
  if r2 ≠ 0 then .exit 1 else                       --     exit(1);
  .sigemptyset .set fun set =>                      -- sigemptyset(&set);
  .sigsuspend set fun r =>                          -- if (sigsuspend(&set) == -1)
  if r = -1 then .exit 0 else                       --     exit(0);
  .done                                             -- }

/-- The program of `src/dockeroo/docker/freeze/freeze.c`. -/
def program : Program :=
  { main := main, fn := fun h => match h with | .catcher => catcher }

end docker.freeze

/-! ## The process -/

/-- An active handler invocation: the signal it was entered for, what is left of
its body, and the signal mask to restore when it returns. -/
structure Frame where
  signum : Int
  body : Prog
  saved : sigset_t

/-- State of the process.

* `main`: what `main` still has to do; its head is the operation `main` performs
  next (`inCall = false`) or the call `main` is inside (`inCall = true`).
* `frames`: active handler invocations, innermost first.
* `disp`: the handlers installed so far, latest first; a signal with no entry
  has its default disposition.
* `blocked`: the signal mask; `saved`: the mask `sigsuspend` puts back on return.
* `ops`: the external operations performed so far, oldest first.
* `entered`: the signals for which a handler was entered so far, oldest first.
* `status`: the exit status once the process has exited.
* `killed`: the signal that killed the process, once one has; a killed process
  has no exit status. -/
structure State where
  main : Prog
  inCall : Bool
  frames : List Frame
  disp : List (Int × SigAction)
  blocked : sigset_t
  saved : sigset_t
  ops : List Op
  entered : List Int
  status : Option Int
  killed : Option Int

/-- What the environment can do to the process. -/
inductive Event where
  | result (r : Int)
  | returns (r : Int)
  | proceed
  | deliver (signum : Int)
  | run
deriving DecidableEq, Repr

/-- The process has exited or was killed. -/
def State.ended (st : State) : Bool :=
  st.status.isSome || st.killed.isSome

/-- The action installed for `signum`, if the program installed one. -/
def handlerOf (disp : List (Int × SigAction)) (signum : Int) : Option SigAction :=
  (disp.find? fun e => e.1 == signum).map fun e => e.2

/-- Whether `flag` is set in `sa_flags`. -/
def hasFlag (act : SigAction) (flag : Nat) : Bool :=
  Nat.land act.sa_flags.toNat flag != 0

/-- Whether the default action of `signum` ends the process (Linux `signal(7)`):
every signal from 1 to 64 except SIGCHLD 17, SIGCONT 18, the stop signals 19 to
22, SIGURG 23 and SIGWINCH 28, which are ignored or stop and resume the process. -/
def defaultKills (signum : Int) : Bool :=
  decide (1 ≤ signum) && decide (signum ≤ 64) &&
    !([17, 18, 19, 20, 21, 22, 23, 28].contains signum)

/-- `main`, in user code, performs the operation at the head of what is left of
it.  `sigemptyset` is a library function that stores the empty set and returns;
`sigaction`, `sigsuspend` and `write` enter the kernel and `main` is then
inside the call; `sigsuspend` installs its mask and keeps the old one to put
back.  `exit` ends the process with the status passed.  Reaching the closing
brace of `main` returns to the C runtime, which ends the process with status 0
(C99 5.1.2.2.3); no `exit` call of the program is recorded for it. -/
def proceed (st : State) : State :=
  match st.main with
  | .sigemptyset dst k => { st with main := k [], ops := st.ops ++ [.sigemptyset dst] }
  | .sigaction signum act _ => { st with inCall := true, ops := st.ops ++ [.sigaction signum act] }
  | .sigsuspend mask _ =>
      { st with inCall := true, ops := st.ops ++ [.sigsuspend mask],
                saved := st.blocked, blocked := mask }
  | .write fd bytes _ => { st with inCall := true, ops := st.ops ++ [.write fd bytes] }
  | .exit status => { st with ops := st.ops ++ [.exit status], status := some status }
  | .done => { st with status := some 0 }

/-- The call `main` is inside returns `r`, and `main` is back in user code with
`r` in hand.  A `sigaction` that returns 0 has installed its action.  A
`sigsuspend` that returns puts the saved mask back; the environment may let it
return, with any value, whenever no handler is active. -/
def stepReturns (st : State) (r : Int) : State :=
  match st.main with
  | .sigaction signum act k =>
      { st with main := k r, inCall := false,
                disp := if r = 0 then (signum, act) :: st.disp else st.disp }
  | .sigsuspend _ k => { st with main := k r, inCall := false, blocked := st.saved }
  | .write _ _ k => { st with main := k r, inCall := false }
  | _ => st

/-- `main`, in user code with `q` left to do, runs until it is inside a call or
the process has ended: `proceed` repeated. -/
def advance (st : State) : Prog → State
  | .sigemptyset dst k =>
      advance { st with main := k [], ops := st.ops ++ [.sigemptyset dst] } (k [])
  | .sigaction signum act k =>
      { st with main := .sigaction signum act k, inCall := true,
                ops := st.ops ++ [.sigaction signum act] }
  | .sigsuspend mask k =>
      { st with main := .sigsuspend mask k, inCall := true,
                ops := st.ops ++ [.sigsuspend mask], saved := st.blocked, blocked := mask }
  | .write fd bytes k =>
      { st with main := .write fd bytes k, inCall := true, ops := st.ops ++ [.write fd bytes] }
  | .exit status =>
      { st with main := .exit status, ops := st.ops ++ [.exit status], status := some status }
  | .done => { st with main := .done, status := some 0 }

/-- `main` runs up to its next call, unless it is inside one already. -/
def settle (st : State) : State :=
  if st.inCall then st else advance st st.main

/-- The bundled event `result r`: `main` runs up to its next call, the call
returns `r`, and `main` runs on until it is inside the call after that one, or
the process has ended. -/
def stepResult (st : State) (r : Int) : State :=
  if (settle st).ended then settle st else settle (stepReturns (settle st) r)

/-- Whether a handler entered now is entered out of `sigsuspend`. -/
def inSigsuspend (st : State) : Bool :=
  st.inCall && st.frames.isEmpty &&
    match st.main with
    | .sigsuspend _ _ => true
    | _ => false

/-- Signal `signum` is delivered.  Only possible while it is not blocked.  With
a handler installed, the handler is entered: while it runs the mask also holds
`sa_mask` and, unless `SA_NODEFER` is set, the signal itself.  With no handler
installed the default action is taken: the process is killed, or nothing
changes. -/
def stepDeliver (p : Program) (st : State) (signum : Int) : State :=
  if signum ∈ st.blocked then st else
  match handlerOf st.disp signum with
  | none => if defaultKills signum then { st with killed := some signum } else st
  | some act =>
      { st with
        frames := { signum := signum, body := p.fn act.sa_handler signum,
                    saved := if inSigsuspend st then st.saved else st.blocked } :: st.frames,
        blocked := st.blocked ++ act.sa_mask ++
          (if hasFlag act SA_NODEFER then [] else [signum]),
        disp := if hasFlag act SA_RESETHAND then st.disp.filter (fun e => e.1 != signum)
                else st.disp,
        entered := st.entered ++ [signum] }

/-- The innermost active handler executes the next operation of its body.  The
handler of this program makes no call that waits for a result; such calls in a
handler are not modelled. -/
def stepRun (st : State) : State :=
  match st.frames with
  | [] => st
  | f :: fs =>
    match f.body with
    | .exit status => { st with ops := st.ops ++ [.exit status], status := some status }
    | .done => { st with frames := fs, blocked := f.saved }
    | .sigemptyset dst k =>
        { st with ops := st.ops ++ [.sigemptyset dst], frames := { f with body := k [] } :: fs }
    | _ => st

/-- One event.  Nothing happens to a process that has ended.  The events of
`main` are possible only while no handler is active, `proceed` only in user
code and `returns` only inside a call; an event that is not possible in the
current state leaves it unchanged. -/
def step (p : Program) (st : State) (e : Event) : State :=
  if st.ended then st else
  match e with
  | .deliver signum => stepDeliver p st signum
  | .run => stepRun st
  | .result r => if st.frames.isEmpty then stepResult st r else st
  | .returns r => if st.frames.isEmpty && st.inCall then stepReturns st r else st
  | .proceed => if st.frames.isEmpty && !st.inCall then proceed st else st

/-- The process at its start: `main` has performed nothing yet.  `mask0` is the
signal mask inherited from the parent. -/
def boot (p : Program) (mask0 : sigset_t) : State :=
  { main := p.main, inCall := false, frames := [], disp := [], blocked := mask0,
    saved := mask0, ops := [], entered := [], status := none, killed := none }

/-- Run the process of `p`, started with mask `mask0`, through `es`. -/
def exec (p : Program) (mask0 : sigset_t) (es : List Event) : State :=
  es.foldl (step p) (boot p mask0)

/-- Number of SIGKILL (`<signal.h>`); it cannot be caught, blocked or ignored. -/
def SIGKILL : Int := 9

/-- The action both `sigaction` calls of `main` pass. -/
def act : SigAction :=
  { sa_handler := .catcher, sa_mask := [], sa_flags := 0 }

/-- The operations of `main` up to and including the `sigsuspend` call. -/
def setupOps : List Op :=
  [.sigemptyset .act_sa_mask, .sigaction SIGINT act, .sigaction SIGTERM act,
   .sigemptyset .set, .sigsuspend []]

/-- What is left of `main` from the `sigsuspend` call on. -/
def suspendedMain : Prog :=
  .sigsuspend [] fun r => if r = -1 then .exit 0 else .done

/-- What is left of `main` after both installations. -/
def afterInstallMain : Prog :=
  .sigemptyset .set fun set => .sigsuspend set fun r => if r = -1 then .exit 0 else .done

/-- What is left of `main` from the `sigaction` call for SIGTERM on. -/
def installingMain : Prog :=
  .sigaction SIGTERM act fun r2 => if r2 ≠ 0 then .exit 1 else afterInstallMain

/-- What is left of `main` from the `sigaction` call for SIGINT on. -/
def startingMain : Prog :=
  .sigaction SIGINT act fun r1 => if r1 ≠ 0 then .exit 1 else installingMain

/-- The process once both installations have succeeded and `main` is inside
`sigsuspend` with the empty mask. -/
def suspended (mask0 : sigset_t) : State :=
  { main := suspendedMain, inCall := true, frames := [],
    disp := [(SIGTERM, act), (SIGINT, act)], blocked := [], saved := mask0,
    ops := setupOps, entered := [], status := none, killed := none }

/-- How a wait in `sigsuspend` ends: the call returns `r`; one of the two
signals `main` installed `catcher` for is delivered and the handler runs; or
another signal is delivered. -/
inductive Outcome where
  | returned (r : Int)
  | sigint
  | sigterm
  | other (signum : Int)
deriving DecidableEq, Repr

/-- The events of an outcome. -/
def Outcome.events : Outcome → List Event
  | .returned r => [.result r]
  | .sigint => [.deliver SIGINT, .run]
  | .sigterm => [.deliver SIGTERM, .run]
  | .other signum => [.deliver signum]

/-- The exit status an outcome of the wait ends the process with: 0, or none
when a signal other than the two handled ones is delivered. -/
def Outcome.status : Outcome → Option Int
  | .other _ => none
  | _ => some 0

/-- The signal an outcome of the wait kills the process with: a signal other
than SIGINT and SIGTERM whose default action ends the process. -/
def Outcome.killer : Outcome → Option Int
  | .other signum =>
      if signum = SIGINT ∨ signum = SIGTERM then none
      else if defaultKills signum then some signum else none
  | _ => none

/-- The `exit` calls an outcome of the wait leads to: `exit(0)` by `main` when
`sigsuspend` returns -1, `exit(0)` by `catcher` for SIGINT and SIGTERM, none
otherwise. -/
def Outcome.exits : Outcome → List Op
  | .returned r => if r = -1 then [.exit 0] else []
  | .sigint => [.exit 0]
  | .sigterm => [.exit 0]
  | .other _ => []

/-- A whole run: the results of the two `sigaction` calls, then the outcome of
the wait.  Events after the process has ended do nothing. -/
def schedule (r1 r2 : Int) (o : Outcome) : List Event :=
  .result r1 :: .result r2 :: o.events

/-- Deliveries one at a time: each signal is delivered and the handler it
enters is executed before the next signal is delivered. -/
def serial : List Int → List Event
  | [] => []
  | x :: xs => .deliver x :: .run :: serial xs

/-- The two source files of the repository. -/
inductive SourceFile where
  | freeze
  | docker_freeze
deriving DecidableEq, Repr

/-- The program a source file holds: `freeze` is `src/dockeroo/freeze/freeze.c`,
`docker_freeze` is `src/dockeroo/docker/freeze/freeze.c`. -/
def SourceFile.program : SourceFile → Program
  | .freeze => freeze.program
  | .docker_freeze => docker.freeze.program

/-! ## Observations on operations -/

/-- Is the operation a `sigaction` call? -/
def Op.isSigaction : Op → Bool
  | .sigaction _ _ => true
  | _ => false

/-- Is the operation a `sigsuspend` call? -/
def Op.isSigsuspend : Op → Bool
  | .sigsuspend _ => true
  | _ => false

/-- Is the operation an `exit` call? -/
def Op.isExit : Op → Bool
  | .exit _ => true
  | _ => false

/-- Is the operation an output operation? -/
def Op.isOutput : Op → Bool
  | .write _ _ => true
  | _ => false

/-- The operations the program text is made of: the three signal calls with any
arguments, and `exit` with status 0 or 1.  No output operation. -/
def Op.inText : Op → Prop
  | .sigemptyset _ => True
  | .sigaction _ _ => True
  | .sigsuspend _ => True
  | .exit status => status = 0 ∨ status = 1
  | .write _ _ => False

/-! ## Predicates used in the proofs -/

/-- Every operation that occurs anywhere in the program text satisfies `P`,
whatever values the calls return. -/
inductive Prog.Uses (P : Op → Prop) : Prog → Prop where
  | sigemptyset {dst : SetVar} {k : sigset_t → Prog} :
      P (.sigemptyset dst) → (∀ s, Prog.Uses P (k s)) → Prog.Uses P (.sigemptyset dst k)
  | sigaction {signum : Int} {a : SigAction} {k : Int → Prog} :
      P (.sigaction signum a) → (∀ r, Prog.Uses P (k r)) → Prog.Uses P (.sigaction signum a k)
  | sigsuspend {mask : sigset_t} {k : Int → Prog} :
      P (.sigsuspend mask) → (∀ r, Prog.Uses P (k r)) → Prog.Uses P (.sigsuspend mask k)
  | write {fd : Int} {bytes : List Nat} {k : Int → Prog} :
      P (.write fd bytes) → (∀ r, Prog.Uses P (k r)) → Prog.Uses P (.write fd bytes k)
  | exit {status : Int} : P (.exit status) → Prog.Uses P (.exit status)
  | done : Prog.Uses P .done

/-- The part of a state that the text-level property `P` controls: what is left
to run uses only operations satisfying `P`, the operations performed satisfy
`P`, and an exit status other than 0 was passed to a performed `exit`. -/
structure Safe (P : Op → Prop) (st : State) : Prop where
  main : Prog.Uses P st.main
  frames : ∀ f ∈ st.frames, Prog.Uses P f.body
  ops : ∀ op ∈ st.ops, P op
  status : ∀ n, st.status = some n → n = 0 ∨ Op.exit n ∈ st.ops

/-- The places `main` can be at.  `start`: nothing performed.  `madeMask`:
`act.sa_mask` emptied.  `inSigint`: inside the `sigaction` call for SIGINT.
`failedInt`: that call returned non-zero, `exit(1)` is next.  `gotInt`: it
returned 0, the call for SIGTERM is next.  `inSigterm`, `failedTerm`, `gotBoth`:
the same for SIGTERM.  `madeSet`: `set` emptied, `sigsuspend` is next.
`inSuspend`: inside `sigsuspend`.  `wokeExit`: `sigsuspend` returned -1, `exit(0)`
is next.  `wokeEnd`: it returned another value, the closing brace is next. -/
inductive Pos where
  | start | madeMask | inSigint | failedInt | gotInt | inSigterm | failedTerm | gotBoth
  | madeSet | inSuspend | wokeExit | wokeEnd
deriving DecidableEq, Repr

/-- What is left of `main` at a place. -/
def Pos.main : Pos → Prog
  | .start => freeze.main
  | .madeMask => startingMain
  | .inSigint => startingMain
  | .failedInt => .exit 1
  | .gotInt => installingMain
  | .inSigterm => installingMain
  | .failedTerm => .exit 1
  | .gotBoth => afterInstallMain
  | .madeSet => suspendedMain
  | .inSuspend => suspendedMain
  | .wokeExit => .exit 0
  | .wokeEnd => .done

/-- Whether `main` is inside a call at a place. -/
def Pos.inCall : Pos → Bool
  | .inSigint => true
  | .inSigterm => true
  | .inSuspend => true
  | _ => false

/-- The operations `main` has performed when it is at a place. -/
def Pos.ops : Pos → List Op
  | .start => []
  | .madeMask => [.sigemptyset .act_sa_mask]
  | .inSigint => [.sigemptyset .act_sa_mask, .sigaction SIGINT act]
  | .failedInt => [.sigemptyset .act_sa_mask, .sigaction SIGINT act]
  | .gotInt => [.sigemptyset .act_sa_mask, .sigaction SIGINT act]
  | .inSigterm => [.sigemptyset .act_sa_mask, .sigaction SIGINT act, .sigaction SIGTERM act]
  | .failedTerm => [.sigemptyset .act_sa_mask, .sigaction SIGINT act, .sigaction SIGTERM act]
  | .gotBoth => [.sigemptyset .act_sa_mask, .sigaction SIGINT act, .sigaction SIGTERM act]
  | .madeSet => [.sigemptyset .act_sa_mask, .sigaction SIGINT act, .sigaction SIGTERM act,
                 .sigemptyset .set]
  | .inSuspend => setupOps
  | .wokeExit => setupOps
  | .wokeEnd => setupOps

/-- The handlers installed when `main` is at a place. -/
def Pos.disp : Pos → List (Int × SigAction)
  | .start => []
  | .madeMask => []
  | .inSigint => []
  | .failedInt => []
  | .gotInt => [(SIGINT, act)]
  | .inSigterm => [(SIGINT, act)]
  | .failedTerm => [(SIGINT, act)]
  | _ => [(SIGTERM, act), (SIGINT, act)]

/-- Places in the order `main` goes through them. -/
def Pos.rank : Pos → Nat
  | .start => 0
  | .madeMask => 1
  | .inSigint => 2
  | .failedInt => 3
  | .gotInt => 4
  | .inSigterm => 5
  | .failedTerm => 6
  | .gotBoth => 7
  | .madeSet => 8
  | .inSuspend => 9
  | .wokeExit => 10
  | .wokeEnd => 11

/-- How the process stands while `main` is at a place: running; ended by
`catcher` calling `exit(0)`; ended by the `exit` call of `main` that is next at
that place; ended by `main` reaching its closing brace; or killed by a signal
with no handler installed whose default action ends the process. -/
inductive Phase (pos : Pos) (st : State) : Prop where
  | live : st.status = none → st.killed = none → st.inCall = pos.inCall →
      st.ops = pos.ops → Phase pos st
  | caught : st.status = some 0 → st.killed = none → st.entered ≠ [] →
      st.ops = pos.ops ++ [.exit 0] → Phase pos st
  | exited (n : Int) : pos.main = Prog.exit n → st.status = some n → st.killed = none →
      st.entered = [] → st.ops = pos.ops ++ [.exit n] → Phase pos st
  | fellOff : pos.main = Prog.done → st.status = some 0 → st.killed = none →
      st.entered = [] → st.ops = pos.ops → Phase pos st
  | killed (s : Int) : st.killed = some s → st.status = none → st.ops = pos.ops →
      handlerOf pos.disp s = none → defaultKills s = true → Phase pos st

/-- What holds of a state in which `main` is at `pos`: the text left and the
handlers installed are those of the place; every active handler invocation is a
`catcher` about to call `exit(0)`; the invocations are those of the signals
entered so far, each entered once, each SIGINT or SIGTERM, each blocked. -/
structure At (pos : Pos) (st : State) : Prop where
  main : st.main = pos.main
  disp : st.disp = pos.disp
  bodies : ∀ f ∈ st.frames, f.body = Prog.exit 0
  stack : st.frames.map (fun f => f.signum) = st.entered.reverse
  masked : ∀ x ∈ st.entered, x ∈ st.blocked
  nodup : st.entered.Nodup
  sigs : ∀ x ∈ st.entered, x = SIGINT ∨ x = SIGTERM
  phase : Phase pos st

/-- States described by a place at or after the `k`-th. -/
def ReachFrom (k : Nat) (st : State) : Prop :=
  ∃ pos : Pos, k ≤ pos.rank ∧ At pos st

/-- The process once both installations have succeeded and `main` is back in
user code after the second, with `sigemptyset(&set)` next. -/
def installed (mask0 : sigset_t) : State :=
  { main := afterInstallMain, inCall := false, frames := [],
    disp := [(SIGTERM, act), (SIGINT, act)], blocked := mask0, saved := mask0,
    ops := [.sigemptyset .act_sa_mask, .sigaction SIGINT act, .sigaction SIGTERM act],
    entered := [], status := none, killed := none }

/-- What holds while only SIGINT and SIGTERM deliveries and handler steps reach
the suspended process: `main` stays inside `sigsuspend`, the signals blocked are
exactly those a handler was entered for, and the process is not killed. -/
structure Burst (st : State) : Prop where
  place : At .inSuspend st
  mask : st.blocked = st.entered
  alive : st.killed = none

/-! ## Basic facts about the machine -/

theorem step_of_ended (p : Program) (st : State) (e : Event)
    (h : st.ended = true) : step p st e = st := by
  simp [step, h]

theorem foldl_step_of_ended (p : Program) (es : List Event) :
    ∀ st : State, st.ended = true → es.foldl (step p) st = st := by
  induction es with
  | nil => intro st _; rfl
  | cons e es ih =>
    intro st h
    rw [List.foldl_cons, step_of_ended p st e h]
    exact ih st h

theorem ended_of_status {st : State} {n : Int} (h : st.status = some n) : st.ended = true := by
  simp [State.ended, h]

theorem ended_of_killed {st : State} {s : Int} (h : st.killed = some s) : st.ended = true := by
  simp [State.ended, h]

theorem not_ended {st : State} (h1 : st.status = none) (h2 : st.killed = none) :
    st.ended = false := by
  simp [State.ended, h1, h2]

theorem exec_append (p : Program) (mask0 : sigset_t) (es fs : List Event) :
    exec p mask0 (es ++ fs) = fs.foldl (step p) (exec p mask0 es) := by
  simp [exec, List.foldl_append]

theorem exec_installed (mask0 : sigset_t) (es : List Event) :
    exec freeze.program mask0 (.result 0 :: .result 0 :: es)
      = es.foldl (step freeze.program) (suspended mask0) := by
  rfl

/-- Running `main` on is `proceed` repeated: what `proceed` preserves, `advance`
preserves. -/
theorem advance_induction (Q : State → Prop)
    (hstep : ∀ st, Q st → st.ended = false → st.frames = [] → st.inCall = false →
      Q (proceed st)) :
    ∀ (q : Prog) (st : State), st.main = q → st.ended = false → st.frames = [] →
      st.inCall = false → Q st → Q (advance st q) := by
  intro q
  induction q with
  | sigemptyset dst k ih =>
    intro st hm he hf hc hq
    have hp : proceed st = { st with main := k [], ops := st.ops ++ [.sigemptyset dst] } := by
      simp [proceed, hm]
    have hq' := hstep st hq he hf hc
    rw [hp] at hq'
    simp only [advance]
    exact ih [] _ rfl he hf hc hq'
  | sigaction signum a k _ =>
    intro st hm he hf hc hq
    have hp : proceed st = advance st (.sigaction signum a k) := by
      obtain ⟨m, _, _, _, _, _, _, _, _, _⟩ := st
      simp only at hm
      subst hm
      rfl
    rw [← hp]
    exact hstep st hq he hf hc
  | sigsuspend mask k _ =>
    intro st hm he hf hc hq
    have hp : proceed st = advance st (.sigsuspend mask k) := by
      obtain ⟨m, _, _, _, _, _, _, _, _, _⟩ := st
      simp only at hm
      subst hm
      rfl
    rw [← hp]
    exact hstep st hq he hf hc
  | write fd bytes k _ =>
    intro st hm he hf hc hq
    have hp : proceed st = advance st (.write fd bytes k) := by
      obtain ⟨m, _, _, _, _, _, _, _, _, _⟩ := st
      simp only at hm
      subst hm
      rfl
    rw [← hp]
    exact hstep st hq he hf hc
  | exit status =>
    intro st hm he hf hc hq
    have hp : proceed st = advance st (.exit status) := by
      obtain ⟨m, _, _, _, _, _, _, _, _, _⟩ := st
      simp only at hm
      subst hm
      rfl
    rw [← hp]
    exact hstep st hq he hf hc
  | done =>
    intro st hm he hf hc hq
    have hp : proceed st = advance st .done := by
      obtain ⟨m, _, _, _, _, _, _, _, _, _⟩ := st
      simp only at hm
      subst hm
      rfl
    rw [← hp]
    exact hstep st hq he hf hc

theorem advance_frames (q : Prog) : ∀ st : State, (advance st q).frames = st.frames := by
  induction q with
  | sigemptyset dst k ih => intro st; simp only [advance]; rw [ih]
  | sigaction _ _ _ _ => intro st; rfl
  | sigsuspend _ _ _ => intro st; rfl
  | write _ _ _ _ => intro st; rfl
  | exit _ => intro st; rfl
  | done => intro st; rfl

theorem advance_inCall (q : Prog) :
    ∀ st : State, (advance st q).ended = false → (advance st q).inCall = true := by
  induction q with
  | sigemptyset dst k ih => intro st h; simp only [advance] at h ⊢; exact ih [] _ h
  | sigaction _ _ _ _ => intro st _; rfl
  | sigsuspend _ _ _ => intro st _; rfl
  | write _ _ _ _ => intro st _; rfl
  | exit _ => intro st h; simp [advance, State.ended] at h
  | done => intro st h; simp [advance, State.ended] at h

theorem settle_frames (st : State) : (settle st).frames = st.frames := by
  unfold settle
  split
  · rfl
  · exact advance_frames _ _

theorem settle_inCall (st : State) (h : (settle st).ended = false) :
    (settle st).inCall = true := by
  unfold settle at h ⊢
  split
  · assumption
  · rename_i hc
    simp only [hc] at h
    exact advance_inCall _ _ h

theorem settle_induction (Q : State → Prop)
    (hstep : ∀ st, Q st → st.ended = false → st.frames = [] → st.inCall = false →
      Q (proceed st))
    (st : State) (he : st.ended = false) (hf : st.frames = []) (hq : Q st) : Q (settle st) := by
  unfold settle
  split
  · exact hq
  · rename_i hc
    exact advance_induction Q hstep _ st rfl he hf (by simpa using hc) hq

theorem stepReturns_frames (st : State) (r : Int) : (stepReturns st r).frames = st.frames := by
  unfold stepReturns
  split <;> rfl

theorem stepReturns_ended (st : State) (r : Int) : (stepReturns st r).ended = st.ended := by
  unfold stepReturns
  split <;> rfl

/-- What `proceed` and `returns` preserve, the bundled event `result` preserves. -/
theorem result_induction (Q : State → Prop) (r : Int)
    (hstep : ∀ st, Q st → st.ended = false → st.frames = [] → st.inCall = false →
      Q (proceed st))
    (hret : ∀ st, Q st → st.ended = false → st.frames = [] → st.inCall = true →
      Q (stepReturns st r))
    (st : State) (he : st.ended = false) (hf : st.frames = []) (hq : Q st) :
    Q (stepResult st r) := by
  have h1 : Q (settle st) := settle_induction Q hstep st he hf hq
  have hf1 : (settle st).frames = [] := by rw [settle_frames]; exact hf
  unfold stepResult
  split
  · exact h1
  · rename_i hne
    have he1 : (settle st).ended = false := by simpa using hne
    have hc1 := settle_inCall st he1
    have h2 := hret _ h1 he1 hf1 hc1
    apply settle_induction Q hstep _ _ _ h2
    · rw [stepReturns_ended]; exact he1
    · rw [stepReturns_frames]; exact hf1

/-- One event, split by what it does: nothing; a step of `main`; a delivery; a
handler step.  What is preserved by the four kinds of step is preserved by
`step`. -/
theorem step_induction (Q : State → Prop) (p : Program)
    (hstep : ∀ st, Q st → st.ended = false → st.frames = [] → st.inCall = false →
      Q (proceed st))
    (hret : ∀ r st, Q st → st.ended = false → st.frames = [] → st.inCall = true →
      Q (stepReturns st r))
    (hdel : ∀ x st, Q st → st.ended = false → Q (stepDeliver p st x))
    (hrun : ∀ st, Q st → st.ended = false → Q (stepRun st))
    (st : State) (e : Event) (hq : Q st) : Q (step p st e) := by
  unfold step
  split
  · exact hq
  · rename_i hne
    have he : st.ended = false := by simpa using hne
    cases e with
    | deliver x => exact hdel x st hq he
    | run => exact hrun st hq he
    | result r =>
      simp only
      split
      · rename_i hf
        exact result_induction Q r hstep (hret r) st he (by simpa using hf) hq
      · exact hq
    | returns r =>
      simp only
      split
      · rename_i hf
        simp only [Bool.and_eq_true, List.isEmpty_iff] at hf
        exact hret r st hq he hf.1 hf.2
      · exact hq
    | proceed =>
      simp only
      split
      · rename_i hf
        simp only [Bool.and_eq_true, List.isEmpty_iff, Bool.not_eq_true'] at hf
        exact hstep st hq he hf.1 hf.2
      · exact hq

theorem foldl_induction (Q : State → Prop) (p : Program)
    (hstep : ∀ st e, Q st → Q (step p st e)) (es : List Event) :
    ∀ st : State, Q st → Q (es.foldl (step p) st) := by
  induction es with
  | nil => intro st h; exact h
  | cons e es ih => intro st h; exact ih _ (hstep st e h)

/-! ## From the program text to every run -/

theorem mem_snoc_of {P : Op → Prop} {ops : List Op} {o op : Op} (ho : ∀ x ∈ ops, P x)
    (hP : P o) (h : op ∈ ops ++ [o]) : P op := by
  rcases List.mem_append.mp h with h | h
  · exact ho op h
  · rw [List.mem_singleton.mp h]; exact hP

theorem safe_proceed (P : Op → Prop) (st : State) (hs : Safe P st) (h0 : st.ended = false) :
    Safe P (proceed st) := by
  have hst : st.status = none := by
    cases h : st.status with
    | none => rfl
    | some n => simp [State.ended, h] at h0
  have hmain := hs.main
  unfold proceed
  cases hm : st.main with
  | sigemptyset dst k =>
    rw [hm] at hmain
    cases hmain with
    | sigemptyset hP hk =>
      exact ⟨hk [], hs.frames, fun op h => mem_snoc_of hs.ops hP h,
        fun n hn => by simp [hst] at hn⟩
  | sigaction x a k =>
    rw [hm] at hmain
    cases hmain with
    | sigaction hP hk =>
      exact ⟨.sigaction hP hk, hs.frames,
        fun op h => mem_snoc_of hs.ops hP h, fun n hn => by simp [hst] at hn⟩
  | sigsuspend m k =>
    rw [hm] at hmain
    cases hmain with
    | sigsuspend hP hk =>
      exact ⟨.sigsuspend hP hk, hs.frames,
        fun op h => mem_snoc_of hs.ops hP h, fun n hn => by simp [hst] at hn⟩
  | write fd b k =>
    rw [hm] at hmain
    cases hmain with
    | write hP hk =>
      exact ⟨.write hP hk, hs.frames,
        fun op h => mem_snoc_of hs.ops hP h, fun n hn => by simp [hst] at hn⟩
  | exit n =>
    rw [hm] at hmain
    cases hmain with
    | exit hP =>
      refine ⟨.exit hP, hs.frames,
        fun op h => mem_snoc_of hs.ops hP h, ?_⟩
      intro m hmn
      right
      simp only [Option.some.injEq] at hmn
      simp [hmn]
  | done =>
    refine ⟨.done, hs.frames, hs.ops, ?_⟩
    intro m hmn
    left
    simp only [Option.some.injEq] at hmn
    exact hmn.symm

theorem safe_returns (P : Op → Prop) (r : Int) (st : State) (hs : Safe P st) :
    Safe P (stepReturns st r) := by
  have hmain := hs.main
  unfold stepReturns
  cases hm : st.main with
  | sigemptyset dst k => exact hs
  | exit n => exact hs
  | done => exact hs
  | sigaction x a k =>
    rw [hm] at hmain
    cases hmain with
    | sigaction _ hk => exact ⟨hk r, hs.frames, hs.ops, hs.status⟩
  | sigsuspend m k =>
    rw [hm] at hmain
    cases hmain with
    | sigsuspend _ hk => exact ⟨hk r, hs.frames, hs.ops, hs.status⟩
  | write fd b k =>
    rw [hm] at hmain
    cases hmain with
    | write _ hk => exact ⟨hk r, hs.frames, hs.ops, hs.status⟩

theorem safe_deliver (P : Op → Prop) (p : Program) (hfn : ∀ h x, Prog.Uses P (p.fn h x))
    (x : Int) (st : State) (hs : Safe P st) : Safe P (stepDeliver p st x) := by
  unfold stepDeliver
  split
  · exact hs
  · split
    · split
      · exact ⟨hs.main, hs.frames, hs.ops, hs.status⟩
      · exact hs
    · refine ⟨hs.main, ?_, hs.ops, hs.status⟩
      intro f hf
      rcases List.mem_cons.mp hf with hf | hf
      · rw [hf]; exact hfn _ _
      · exact hs.frames f hf

theorem safe_run (P : Op → Prop) (st : State) (hs : Safe P st) (h0 : st.ended = false) :
    Safe P (stepRun st) := by
  have hst : st.status = none := by
    cases h : st.status with
    | none => rfl
    | some n => simp [State.ended, h] at h0
  unfold stepRun
  cases hfr : st.frames with
  | nil => exact hs
  | cons f fs =>
    simp only
    have hfu : Prog.Uses P f.body := hs.frames f (by simp [hfr])
    have hrest : ∀ g ∈ fs, Prog.Uses P g.body := fun g hg => hs.frames g (by simp [hfr, hg])
    cases hb : f.body with
    | sigaction x a k => exact hs
    | sigsuspend m k => exact hs
    | write fd b k => exact hs
    | exit n =>
      rw [hb] at hfu
      cases hfu with
      | exit hP =>
        refine ⟨hs.main, ?_, fun op h => mem_snoc_of hs.ops hP h, ?_⟩
        · rw [← hfr]; exact hs.frames
        · intro m hm
          right
          simp only [Option.some.injEq] at hm
          simp [hm]
    | done =>
      exact ⟨hs.main, hrest, hs.ops, fun n hn => by simp [hst] at hn⟩
    | sigemptyset dst k =>
      rw [hb] at hfu
      cases hfu with
      | sigemptyset hP hk =>
        refine ⟨hs.main, ?_, fun op h => mem_snoc_of hs.ops hP h,
          fun n hn => by simp [hst] at hn⟩
        intro g hg
        rcases List.mem_cons.mp hg with hg | hg
        · rw [hg]; exact hk []
        · exact hrest g hg

/-- If the text of `main` and of every handler uses only operations satisfying
`P`, every run performs only such operations. -/
theorem safe_exec (P : Op → Prop) (p : Program) (hmain : Prog.Uses P p.main)
    (hfn : ∀ h x, Prog.Uses P (p.fn h x)) (mask0 : sigset_t) (es : List Event) :
    Safe P (exec p mask0 es) := by
  apply foldl_induction (Safe P) p
  · intro st e hs
    exact step_induction (Safe P) p
      (fun st hs he _ _ => safe_proceed P st hs he)
      (fun r st hs _ _ _ => safe_returns P r st hs)
      (fun x st hs _ => safe_deliver P p hfn x st hs)
      (fun st hs he => safe_run P st hs he) st e hs
  · refine ⟨hmain, ?_, ?_, ?_⟩
    · intro f hf; simp [boot] at hf
    · intro op hop; simp [boot] at hop
    · intro n hn; simp [boot] at hn

theorem main_uses : Prog.Uses Op.inText freeze.main := by
  unfold freeze.main
  refine .sigemptyset trivial fun s => ?_
  refine .sigaction trivial fun r1 => ?_
  split
  · exact .exit (Or.inr rfl)
  refine .sigaction trivial fun r2 => ?_
  split
  · exact .exit (Or.inr rfl)
  refine .sigemptyset trivial fun s2 => ?_
  refine .sigsuspend trivial fun r => ?_
  split
  · exact .exit (Or.inl rfl)
  · exact .done

theorem catcher_uses (h : HandlerFn) (x : Int) : Prog.Uses Op.inText (freeze.program.fn h x) := by
  cases h
  exact .exit (Or.inl rfl)

/-! ## All reachable states -/

theorem handlerOf_nil (x : Int) : handlerOf [] x = none := rfl

theorem handlerOf_sigint_only (x : Int) :
    handlerOf [(SIGINT, act)] x = if x = SIGINT then some act else none := by
  unfold handlerOf
  by_cases h : x = SIGINT
  · subst h; simp
  · have h2 : (SIGINT == x) = false := by simpa using fun e : SIGINT = x => h e.symm
    simp [List.find?, h, h2]

theorem handlerOf_installed (x : Int) :
    handlerOf [(SIGTERM, act), (SIGINT, act)] x
      = if x = SIGTERM ∨ x = SIGINT then some act else none := by
  unfold handlerOf
  by_cases h1 : x = SIGTERM
  · subst h1; simp [SIGTERM, SIGINT]
  · by_cases h2 : x = SIGINT
    · subst h2; simp [SIGTERM, SIGINT]
    · have e1 : (SIGTERM == x) = false := by simpa using fun e : SIGTERM = x => h1 e.symm
      have e2 : (SIGINT == x) = false := by simpa using fun e : SIGINT = x => h2 e.symm
      simp [List.find?, h1, h2, e1, e2]

/-- Every handler installed at any place is `act`, for SIGINT or SIGTERM. -/
theorem handlerOf_pos (pos : Pos) (x : Int) (a : SigAction)
    (h : handlerOf pos.disp x = some a) : a = act ∧ (x = SIGINT ∨ x = SIGTERM) := by
  have a2 : handlerOf [(SIGINT, act)] x = some a → a = act ∧ (x = SIGINT ∨ x = SIGTERM) := by
    intro h
    rw [handlerOf_sigint_only] at h
    split at h
    · rename_i hx
      simp only [Option.some.injEq] at h
      exact ⟨h.symm, Or.inl hx⟩
    · cases h
  have a3 : handlerOf [(SIGTERM, act), (SIGINT, act)] x = some a →
      a = act ∧ (x = SIGINT ∨ x = SIGTERM) := by
    intro h
    rw [handlerOf_installed] at h
    split at h
    · rename_i hx
      simp only [Option.some.injEq] at h
      exact ⟨h.symm, hx.symm⟩
    · cases h
  cases pos
  all_goals first
    | exact a2 h
    | exact a3 h
    | (simp only [Pos.disp, handlerOf_nil] at h; cases h)

theorem hasFlag_act (flag : Nat) : hasFlag act flag = false := by
  have h : Nat.land 0 flag = 0 := Nat.zero_and flag
  simp [hasFlag, act, h]

theorem status_none_of_not_ended {st : State} (h : st.ended = false) : st.status = none := by
  cases hs : st.status with
  | none => rfl
  | some n => simp [State.ended, hs] at h

theorem killed_none_of_not_ended {st : State} (h : st.ended = false) : st.killed = none := by
  cases hs : st.killed with
  | none => rfl
  | some n => simp [State.ended, hs] at h

/-- A process that has not ended is in the `live` phase. -/
theorem live_of_not_ended {pos : Pos} {st : State} (hp : Phase pos st)
    (he : st.ended = false) : st.inCall = pos.inCall ∧ st.ops = pos.ops := by
  have h1 := status_none_of_not_ended he
  have h2 := killed_none_of_not_ended he
  cases hp with
  | live _ _ h3 h4 => exact ⟨h3, h4⟩
  | caught h _ _ _ => rw [h1] at h; cases h
  | exited n _ h _ _ _ => rw [h1] at h; cases h
  | fellOff _ h _ _ _ => rw [h1] at h; cases h
  | killed s h _ _ _ _ => rw [h2] at h; cases h

theorem entered_nil_of_frames_nil {pos : Pos} {st : State} (h : At pos st)
    (hf : st.frames = []) : st.entered = [] := by
  have := h.stack
  rw [hf] at this
  simpa using this.symm

theorem frames_ne_nil_of_entered {pos : Pos} {st : State} (h : At pos st)
    (he : st.entered ≠ []) : st.frames ≠ [] := by
  intro hf
  exact he (entered_nil_of_frames_nil h hf)

/-- A state with no handler entered so far is described by its place alone. -/
theorem at_idle {pos : Pos} {st : State} (hm : st.main = pos.main) (hd : st.disp = pos.disp)
    (hf : st.frames = []) (he : st.entered = []) (hp : Phase pos st) : At pos st := by
  refine ⟨hm, hd, ?_, ?_, ?_, ?_, ?_, hp⟩
  · intro f h; simp [hf] at h
  · simp [hf, he]
  · intro x h; simp [he] at h
  · simp [he]
  · intro x h; simp [he] at h

theorem at_deliver (pos : Pos) (x : Int) (st : State) (h : At pos st) (he : st.ended = false) :
    At pos (stepDeliver freeze.program st x) := by
  have h1 := status_none_of_not_ended he
  have h2 := killed_none_of_not_ended he
  obtain ⟨h3, h4⟩ := live_of_not_ended h.phase he
  unfold stepDeliver
  by_cases hx : x ∈ st.blocked
  · simp only [hx, if_true]; exact h
  · simp only [hx, if_false]
    cases hh : handlerOf st.disp x with
    | none =>
      simp only
      by_cases hk : defaultKills x = true
      · simp only [hk, if_true]
        refine ⟨h.main, h.disp, h.bodies, h.stack, h.masked, h.nodup, h.sigs, ?_⟩
        rw [h.disp] at hh
        exact .killed x rfl h1 h4 hh hk
      · simp only [hk]
        exact h
    | some a =>
      have hd := hh
      rw [h.disp] at hd
      obtain ⟨ha, hsig⟩ := handlerOf_pos pos x a hd
      subst ha
      simp only [hasFlag_act]
      refine ⟨h.main, h.disp, ?_, ?_, ?_, ?_, ?_, .live h1 h2 h3 h4⟩
      · intro f hf
        rcases List.mem_cons.mp hf with hf | hf
        · rw [hf]; rfl
        · exact h.bodies f hf
      · simp [h.stack]
      · intro y hy
        rcases List.mem_append.mp hy with hy | hy
        · simp [h.masked y hy]
        · simp [List.mem_singleton.mp hy]
      · exact List.Nodup.append h.nodup (List.nodup_singleton x)
          (by simpa using fun hmem => hx (h.masked x hmem))
      · intro y hy
        rcases List.mem_append.mp hy with hy | hy
        · exact h.sigs y hy
        · rw [List.mem_singleton.mp hy]; exact hsig

theorem at_run (pos : Pos) (st : State) (h : At pos st) (he : st.ended = false) :
    At pos (stepRun st) := by
  have h1 := status_none_of_not_ended he
  have h2 := killed_none_of_not_ended he
  obtain ⟨_, h4⟩ := live_of_not_ended h.phase he
  unfold stepRun
  cases hfr : st.frames with
  | nil => exact h
  | cons f fs =>
    have hfb : f.body = Prog.exit 0 := h.bodies f (by simp [hfr])
    simp only [hfb]
    have hent : st.entered ≠ [] := by
      intro hcon
      have := h.stack
      rw [hfr, hcon] at this
      simp at this
    refine ⟨h.main, h.disp, ?_, ?_, h.masked, h.nodup, h.sigs, ?_⟩
    · rw [← hfr]; exact h.bodies
    · rw [← hfr]; exact h.stack
    · exact .caught rfl h2 hent (by simp [h4])

theorem at_proceed (pos : Pos) (st : State) (h : At pos st) (he : st.ended = false)
    (hf : st.frames = []) (hc : st.inCall = false) :
    ∃ pos', pos.rank ≤ pos'.rank ∧ At pos' (proceed st) := by
  have h1 := status_none_of_not_ended he
  have h2 := killed_none_of_not_ended he
  have hent := entered_nil_of_frames_nil h hf
  obtain ⟨h3, h4⟩ := live_of_not_ended h.phase he
  have hm := h.main
  have hd := h.disp
  obtain ⟨main, inCall, frames, disp, blocked, saved, ops, entered, status, killed⟩ := st
  simp only at h1 h2 hent h3 h4 hm hd hf hc
  subst h1 h2 hent hm hd hf h4 hc
  cases pos
  case start =>
    exact ⟨.madeMask, by decide, at_idle rfl rfl rfl rfl (.live rfl rfl rfl rfl)⟩
  case madeMask =>
    exact ⟨.inSigint, by decide, at_idle rfl rfl rfl rfl (.live rfl rfl rfl rfl)⟩
  case inSigint => cases h3
  case failedInt =>
    exact ⟨.failedInt, by decide, at_idle rfl rfl rfl rfl (.exited 1 rfl rfl rfl rfl rfl)⟩
  case gotInt =>
    exact ⟨.inSigterm, by decide, at_idle rfl rfl rfl rfl (.live rfl rfl rfl rfl)⟩
  case inSigterm => cases h3
  case failedTerm =>
    exact ⟨.failedTerm, by decide, at_idle rfl rfl rfl rfl (.exited 1 rfl rfl rfl rfl rfl)⟩
  case gotBoth =>
    exact ⟨.madeSet, by decide, at_idle rfl rfl rfl rfl (.live rfl rfl rfl rfl)⟩
  case madeSet =>
    exact ⟨.inSuspend, by decide, at_idle rfl rfl rfl rfl (.live rfl rfl rfl rfl)⟩
  case inSuspend => cases h3
  case wokeExit =>
    exact ⟨.wokeExit, by decide, at_idle rfl rfl rfl rfl (.exited 0 rfl rfl rfl rfl rfl)⟩
  case wokeEnd =>
    exact ⟨.wokeEnd, by decide, at_idle rfl rfl rfl rfl (.fellOff rfl rfl rfl rfl rfl)⟩

theorem at_returns (pos : Pos) (r : Int) (st : State) (h : At pos st) (he : st.ended = false)
    (hf : st.frames = []) (hc : st.inCall = true) :
    ∃ pos', pos.rank ≤ pos'.rank ∧ At pos' (stepReturns st r) := by
  have h1 := status_none_of_not_ended he
  have h2 := killed_none_of_not_ended he
  have hent := entered_nil_of_frames_nil h hf
  obtain ⟨h3, h4⟩ := live_of_not_ended h.phase he
  have hm := h.main
  have hd := h.disp
  obtain ⟨main, inCall, frames, disp, blocked, saved, ops, entered, status, killed⟩ := st
  simp only at h1 h2 hent h3 h4 hm hd hf hc
  subst h1 h2 hent hm hd hf h4 hc
  cases pos
  case inSigint =>
    by_cases hr : r = 0
    · subst hr
      exact ⟨.gotInt, by decide, at_idle rfl rfl rfl rfl (.live rfl rfl rfl rfl)⟩
    · refine ⟨.failedInt, by decide, at_idle ?_ ?_ rfl rfl (.live rfl rfl rfl rfl)⟩
      · simp [stepReturns, Pos.main, startingMain, hr]
      · simp [stepReturns, Pos.main, startingMain, Pos.disp, hr]
  case inSigterm =>
    by_cases hr : r = 0
    · subst hr
      exact ⟨.gotBoth, by decide, at_idle rfl rfl rfl rfl (.live rfl rfl rfl rfl)⟩
    · refine ⟨.failedTerm, by decide, at_idle ?_ ?_ rfl rfl (.live rfl rfl rfl rfl)⟩
      · simp [stepReturns, Pos.main, installingMain, hr]
      · simp [stepReturns, Pos.main, installingMain, Pos.disp, hr]
  case inSuspend =>
    by_cases hr : r = -1
    · subst hr
      exact ⟨.wokeExit, by decide, at_idle rfl rfl rfl rfl (.live rfl rfl rfl rfl)⟩
    · refine ⟨.wokeEnd, by decide, at_idle ?_ ?_ rfl rfl (.live rfl rfl rfl rfl)⟩
      · simp [stepReturns, Pos.main, suspendedMain, hr]
      · simp [stepReturns, Pos.main, suspendedMain, Pos.disp]
  all_goals cases h3

theorem reachFrom_step (k : Nat) (st : State) (e : Event) (h : ReachFrom k st) :
    ReachFrom k (step freeze.program st e) := by
  apply step_induction (ReachFrom k) freeze.program _ _ _ _ st e h
  · intro st ⟨pos, hk, hat⟩ he hf hc
    obtain ⟨pos', hr, hat'⟩ := at_proceed pos st hat he hf hc
    exact ⟨pos', Nat.le_trans hk hr, hat'⟩
  · intro r st ⟨pos, hk, hat⟩ he hf hc
    obtain ⟨pos', hr, hat'⟩ := at_returns pos r st hat he hf hc
    exact ⟨pos', Nat.le_trans hk hr, hat'⟩
  · intro x st ⟨pos, hk, hat⟩ he
    exact ⟨pos, hk, at_deliver pos x st hat he⟩
  · intro st ⟨pos, hk, hat⟩ he
    exact ⟨pos, hk, at_run pos st hat he⟩

theorem reachFrom_foldl (k : Nat) (es : List Event) :
    ∀ st : State, ReachFrom k st → ReachFrom k (es.foldl (step freeze.program) st) :=
  foldl_induction (ReachFrom k) freeze.program (fun st e h => reachFrom_step k st e h) es

/-- Every state of every run is described by some place. -/
theorem reach_exec (mask0 : sigset_t) (es : List Event) :
    ∃ pos, At pos (exec freeze.program mask0 es) := by
  have h : ReachFrom 0 (boot freeze.program mask0) :=
    ⟨.start, Nat.le_refl _, at_idle rfl rfl rfl rfl (.live rfl rfl rfl rfl)⟩
  obtain ⟨pos, _, hat⟩ := reachFrom_foldl 0 es _ h
  exact ⟨pos, hat⟩

/-! ## Particular runs -/

theorem exec_installed_fine (mask0 : sigset_t) (es : List Event) :
    exec freeze.program mask0 (.result 0 :: .returns 0 :: es)
      = es.foldl (step freeze.program) (installed mask0) := by
  rfl

/-- The state after a failed SIGINT installation. -/
theorem exec_sigint_failed (mask0 : sigset_t) (r1 : Int) (h : r1 ≠ 0) (es : List Event) :
    exec freeze.program mask0 (.result r1 :: es)
      = { main := .exit 1, inCall := false, frames := [], disp := [], blocked := mask0,
          saved := mask0,
          ops := [.sigemptyset .act_sa_mask, .sigaction SIGINT act, .exit 1],
          entered := [], status := some 1, killed := none } := by
  have h1 : exec freeze.program mask0 [.result r1]
      = { main := .exit 1, inCall := false, frames := [], disp := [], blocked := mask0,
          saved := mask0,
          ops := [.sigemptyset .act_sa_mask, .sigaction SIGINT act, .exit 1],
          entered := [], status := some 1, killed := none } := by
    simp [exec, boot, advance, settle, step, stepResult, stepReturns, State.ended,
      freeze.program, freeze.main, h, act]
  have h2 := exec_append freeze.program mask0 [.result r1] es
  rw [List.singleton_append] at h2
  rw [h2, h1]
  exact foldl_step_of_ended _ es _ rfl

/-- The state after SIGINT was installed and the SIGTERM installation failed. -/
theorem exec_sigterm_failed (mask0 : sigset_t) (r2 : Int) (h : r2 ≠ 0) (es : List Event) :
    exec freeze.program mask0 (.result 0 :: .result r2 :: es)
      = { main := .exit 1, inCall := false, frames := [], disp := [(SIGINT, act)],
          blocked := mask0, saved := mask0,
          ops := [.sigemptyset .act_sa_mask, .sigaction SIGINT act, .sigaction SIGTERM act,
                  .exit 1],
          entered := [], status := some 1, killed := none } := by
  have h1 : exec freeze.program mask0 [.result 0, .result r2]
      = { main := .exit 1, inCall := false, frames := [], disp := [(SIGINT, act)],
          blocked := mask0, saved := mask0,
          ops := [.sigemptyset .act_sa_mask, .sigaction SIGINT act, .sigaction SIGTERM act,
                  .exit 1],
          entered := [], status := some 1, killed := none } := by
    simp [exec, boot, advance, settle, step, stepResult, stepReturns, State.ended,
      freeze.program, freeze.main, h, act]
  have h2 := exec_append freeze.program mask0 [.result 0, .result r2] es
  rw [show [Event.result 0, Event.result r2] ++ es = .result 0 :: .result r2 :: es from rfl] at h2
  rw [h2, h1]
  exact foldl_step_of_ended _ es _ rfl

/-- The state after `sigsuspend` returned `r` to `main`. -/
theorem exec_suspend_returned (mask0 : sigset_t) (r : Int) (es : List Event) :
    exec freeze.program mask0 (.result 0 :: .result 0 :: .result r :: es)
      = if r = -1 then
          { main := .exit 0, inCall := false, frames := [],
            disp := [(SIGTERM, act), (SIGINT, act)],
            blocked := mask0, saved := mask0, ops := setupOps ++ [.exit 0],
            entered := [], status := some 0, killed := none }
        else
          { main := .done, inCall := false, frames := [],
            disp := [(SIGTERM, act), (SIGINT, act)],
            blocked := mask0, saved := mask0, ops := setupOps,
            entered := [], status := some 0, killed := none } := by
  rw [exec_installed, List.foldl_cons]
  by_cases h : r = -1
  · subst h
    exact foldl_step_of_ended _ es _ rfl
  · have h1 : step freeze.program (suspended mask0) (.result r)
        = { main := .done, inCall := false, frames := [],
            disp := [(SIGTERM, act), (SIGINT, act)],
            blocked := mask0, saved := mask0, ops := setupOps,
            entered := [], status := some 0, killed := none } := by
      simp [step, stepResult, settle, stepReturns, State.ended, suspended, suspendedMain,
        advance, h]
    rw [h1, if_neg h]
    exact foldl_step_of_ended _ es _ rfl

/-- The state right after the first delivery of `x` to the suspended process. -/
theorem step_suspended_deliver (mask0 : sigset_t) (x : Int) (hx : x = SIGINT ∨ x = SIGTERM) :
    step freeze.program (suspended mask0) (.deliver x)
      = { suspended mask0 with
          frames := [{ signum := x, body := freeze.catcher x, saved := mask0 }],
          blocked := [x], entered := [x] } := by
  rcases hx with hx | hx <;> subst hx <;> rfl

theorem at_suspended (mask0 : sigset_t) : At .inSuspend (suspended mask0) :=
  at_idle rfl rfl rfl rfl (.live rfl rfl rfl rfl)

theorem at_installed (mask0 : sigset_t) : At .gotBoth (installed mask0) :=
  at_idle rfl rfl rfl rfl (.live rfl rfl rfl rfl)

/-- Every state after both installations and the `sigsuspend` call. -/
theorem reach_suspended (mask0 : sigset_t) (es : List Event) :
    ReachFrom 9 (exec freeze.program mask0 (.result 0 :: .result 0 :: es)) := by
  rw [exec_installed]
  exact reachFrom_foldl 9 es _ ⟨.inSuspend, Nat.le_refl _, at_suspended mask0⟩

/-- Every state after both installations. -/
theorem reach_installed (mask0 : sigset_t) (es : List Event) :
    ReachFrom 7 (exec freeze.program mask0 (.result 0 :: .returns 0 :: es)) := by
  rw [exec_installed_fine]
  exact reachFrom_foldl 7 es _ ⟨.gotBoth, Nat.le_refl _, at_installed mask0⟩

/-- The operations a state at a place can have performed: those of the place,
then possibly one `exit`, with the status the phase gives. -/
theorem ops_of_at {pos : Pos} {st : State} (h : At pos st) :
    st.ops = pos.ops ∨ st.ops = pos.ops ++ [.exit 0] ∨
    (st.ops = pos.ops ++ [.exit 1] ∧ (pos = .failedInt ∨ pos = .failedTerm)) := by
  cases h.phase with
  | live _ _ _ h4 => exact Or.inl h4
  | caught _ _ _ h4 => exact Or.inr (Or.inl h4)
  | exited n hm _ _ _ h4 =>
    cases pos
    case failedInt => cases hm; exact Or.inr (Or.inr ⟨h4, Or.inl rfl⟩)
    case failedTerm => cases hm; exact Or.inr (Or.inr ⟨h4, Or.inr rfl⟩)
    case wokeExit => cases hm; exact Or.inr (Or.inl h4)
    all_goals cases hm
  | fellOff _ _ _ _ h4 => exact Or.inl h4
  | killed s _ _ h4 _ _ => exact Or.inl h4

/-- The operations of a run in which both installations succeeded and `main`
was let into `sigsuspend`: those of the setup, then nothing or one `exit(0)`. -/
theorem ops_installed (mask0 : sigset_t) (es : List Event) :
    (exec freeze.program mask0 (.result 0 :: .result 0 :: es)).ops = setupOps ∨
    (exec freeze.program mask0 (.result 0 :: .result 0 :: es)).ops = setupOps ++ [.exit 0] := by
  obtain ⟨pos, hk, hat⟩ := reach_suspended mask0 es
  have hops : pos.ops = setupOps := by
    cases pos <;> first | rfl | (simp [Pos.rank] at hk)
  rcases ops_of_at hat with h | h | ⟨_, h | h⟩
  · left; rw [h, hops]
  · right; rw [h, hops]
  · subst h; simp [Pos.rank] at hk
  · subst h; simp [Pos.rank] at hk

theorem disp_installed (mask0 : sigset_t) (es : List Event) :
    (exec freeze.program mask0 (.result 0 :: .result 0 :: es)).disp
      = [(SIGTERM, act), (SIGINT, act)] := by
  obtain ⟨pos, hk, hat⟩ := reach_suspended mask0 es
  rw [hat.disp]
  cases pos <;> first | rfl | (simp [Pos.rank] at hk)

theorem length_le_two (l : List Int) (hn : l.Nodup) (hs : ∀ x ∈ l, x = SIGINT ∨ x = SIGTERM) :
    l.length ≤ 2 := by
  have hsub : l ⊆ [SIGINT, SIGTERM] := by
    intro x hx
    rcases hs x hx with h | h <;> simp [h]
  exact (List.Nodup.subperm hn hsub).length_le

theorem stepDeliver_entered (p : Program) (st : State) (x : Int) :
    (stepDeliver p st x).entered = st.entered ∨
    (stepDeliver p st x).entered = st.entered ++ [x] := by
  unfold stepDeliver
  split
  · exact Or.inl rfl
  · split
    · split
      · exact Or.inl rfl
      · exact Or.inl rfl
    · exact Or.inr rfl

theorem stepRun_entered (st : State) : (stepRun st).entered = st.entered := by
  unfold stepRun
  split
  · rfl
  · split <;> rfl

/-- Once a handler was entered, `main` stays at its place: every later event
keeps the place and the fact that a handler was entered. -/
theorem at_stays (pos : Pos) (st : State) (e : Event) (h : At pos st)
    (hent : st.entered ≠ []) :
    At pos (step freeze.program st e) ∧ (step freeze.program st e).entered ≠ [] := by
  apply step_induction (fun st => At pos st ∧ st.entered ≠ []) freeze.program _ _ _ _ st e
    ⟨h, hent⟩
  · intro st ⟨hat, hne⟩ _ hf _
    exact absurd hf (frames_ne_nil_of_entered hat hne)
  · intro r st ⟨hat, hne⟩ _ hf _
    exact absurd hf (frames_ne_nil_of_entered hat hne)
  · intro x st ⟨hat, hne⟩ he
    refine ⟨at_deliver pos x st hat he, ?_⟩
    rcases stepDeliver_entered freeze.program st x with h | h
    · rw [h]; exact hne
    · rw [h]; simp
  · intro st ⟨hat, hne⟩ he
    refine ⟨at_run pos st hat he, ?_⟩
    rw [stepRun_entered]; exact hne

theorem at_stays_foldl (pos : Pos) (es : List Event) :
    ∀ st : State, At pos st → st.entered ≠ [] →
      At pos (es.foldl (step freeze.program) st) ∧
      (es.foldl (step freeze.program) st).entered ≠ [] := by
  induction es with
  | nil => intro st h hne; exact ⟨h, hne⟩
  | cons e es ih =>
    intro st h hne
    obtain ⟨h', hne'⟩ := at_stays pos st e h hne
    exact ih _ h' hne'

/-! ## Bursts of SIGINT and SIGTERM -/

theorem burst_suspended (mask0 : sigset_t) : Burst (suspended mask0) :=
  ⟨at_suspended mask0, rfl, rfl⟩

/-- A process in a burst that has an exit status was ended by `catcher`. -/
theorem burst_status {st : State} (h : Burst st) {n : Int} (hs : st.status = some n) :
    n = 0 ∧ st.entered ≠ [] ∧ st.ops = setupOps ++ [.exit 0] := by
  cases h.place.phase with
  | live h1 _ _ _ => rw [h1] at hs; cases hs
  | caught h1 _ h3 h4 =>
    rw [h1] at hs
    simp only [Option.some.injEq] at hs
    exact ⟨hs.symm, h3, h4⟩
  | exited m hm _ _ _ _ => cases hm
  | fellOff hm _ _ _ _ => cases hm
  | killed s hk _ _ _ _ => rw [h.alive] at hk; cases hk

/-- What a SIGINT or SIGTERM delivery does to a running process in a burst:
`catcher` is entered unless it was already entered for that signal. -/
theorem burst_deliver (st : State) (x : Int) (hx : x = SIGINT ∨ x = SIGTERM) (h : Burst st)
    (he : st.ended = false) :
    Burst (step freeze.program st (.deliver x)) ∧
    (step freeze.program st (.deliver x)).entered
      = if x ∈ st.entered then st.entered else st.entered ++ [x] := by
  have hstep : step freeze.program st (.deliver x) = stepDeliver freeze.program st x := by
    simp [step, he]
  rw [hstep]
  have hat := at_deliver .inSuspend x st h.place he
  have hd : handlerOf st.disp x = some act := by
    rw [h.place.disp]
    show handlerOf [(SIGTERM, act), (SIGINT, act)] x = some act
    rw [handlerOf_installed, if_pos hx.symm]
  by_cases hb : x ∈ st.blocked
  · have hsame : stepDeliver freeze.program st x = st := by
      simp [stepDeliver, hb]
    rw [hsame]
    refine ⟨h, ?_⟩
    rw [h.mask] at hb
    simp [hb]
  · have hm : (stepDeliver freeze.program st x).blocked = st.blocked ++ [x] := by
      simp only [stepDeliver, hb, hd, hasFlag_act, if_false]
      simp [act]
    have hen : (stepDeliver freeze.program st x).entered = st.entered ++ [x] := by
      simp [stepDeliver, hb, hd]
    have hk : (stepDeliver freeze.program st x).killed = st.killed := by
      simp [stepDeliver, hb, hd]
    refine ⟨⟨hat, ?_, ?_⟩, ?_⟩
    · rw [hm, hen, h.mask]
    · rw [hk]; exact h.alive
    · rw [h.mask] at hb
      rw [hen]; simp [hb]

theorem burst_run (st : State) (h : Burst st) : Burst (step freeze.program st .run) := by
  cases he : st.ended with
  | true => rw [step_of_ended _ _ _ he]; exact h
  | false =>
    have hstep : step freeze.program st .run = stepRun st := by
      simp [step, he]
    rw [hstep]
    refine ⟨at_run .inSuspend st h.place he, ?_, ?_⟩
    · unfold stepRun
      cases hfr : st.frames with
      | nil => exact h.mask
      | cons f fs =>
        have hfb : f.body = Prog.exit 0 := h.place.bodies f (by simp [hfr])
        simp only [hfb]
        exact h.mask
    · unfold stepRun
      cases hfr : st.frames with
      | nil => exact h.alive
      | cons f fs =>
        have hfb : f.body = Prog.exit 0 := h.place.bodies f (by simp [hfr])
        simp only [hfb]
        exact h.alive

theorem burst_step (st : State) (e : Event)
    (he : e = .run ∨ e = .deliver SIGINT ∨ e = .deliver SIGTERM) (h : Burst st) :
    Burst (step freeze.program st e) := by
  rcases he with he | he | he
  · subst he; exact burst_run st h
  · subst he
    cases hen : st.ended with
    | true => rw [step_of_ended _ _ _ hen]; exact h
    | false => exact (burst_deliver st SIGINT (Or.inl rfl) h hen).1
  · subst he
    cases hen : st.ended with
    | true => rw [step_of_ended _ _ _ hen]; exact h
    | false => exact (burst_deliver st SIGTERM (Or.inr rfl) h hen).1

theorem burst_foldl (es : List Event)
    (hes : ∀ e ∈ es, e = .run ∨ e = .deliver SIGINT ∨ e = .deliver SIGTERM) :
    ∀ st : State, Burst st → Burst (es.foldl (step freeze.program) st) := by
  induction es with
  | nil => intro st h; exact h
  | cons e es ih =>
    intro st h
    exact ih (fun e he => hes e (List.mem_cons_of_mem _ he)) _
      (burst_step st e (hes e (List.mem_cons_self _ _)) h)

/-- A burst with at least one delivery has entered a handler. -/
theorem entered_of_delivery (es : List Event)
    (hes : ∀ e ∈ es, e = .run ∨ e = .deliver SIGINT ∨ e = .deliver SIGTERM) :
    ∀ st : State, Burst st → (st.entered ≠ [] ∨ ∃ x, Event.deliver x ∈ es) →
      (es.foldl (step freeze.program) st).entered ≠ [] := by
  induction es with
  | nil =>
    intro st _ h
    rcases h with h | ⟨x, hx⟩
    · exact h
    · simp at hx
  | cons e es ih =>
    intro st hb h
    have hes' : ∀ e ∈ es, e = .run ∨ e = .deliver SIGINT ∨ e = .deliver SIGTERM :=
      fun e he => hes e (List.mem_cons_of_mem _ he)
    have hb' := burst_step st e (hes e (List.mem_cons_self _ _)) hb
    rw [List.foldl_cons]
    by_cases hent : st.entered = []
    · -- nothing entered yet: the process runs, with nothing blocked
      have hst : st.status = none := by
        cases hs : st.status with
        | none => rfl
        | some n => exact absurd hent (burst_status hb hs).2.1
      have hen : st.ended = false := not_ended hst hb.alive
      rcases hes e (List.mem_cons_self _ _) with he | he | he
      · subst he
        apply ih hes' _ hb'
        right
        rcases h with h | ⟨x, hx⟩
        · exact absurd hent h
        · rcases List.mem_cons.mp hx with hx | hx
          · cases hx
          · exact ⟨x, hx⟩
      · subst he
        apply ih hes' _ hb'
        left
        rw [(burst_deliver st SIGINT (Or.inl rfl) hb hen).2, hent]
        simp
      · subst he
        apply ih hes' _ hb'
        left
        rw [(burst_deliver st SIGTERM (Or.inr rfl) hb hen).2, hent]
        simp
    · exact ih hes' _ hb' (Or.inl (at_stays .inSuspend st e hb.place hent).2)

/-- The state after a SIGINT or SIGTERM was delivered to the suspended process
and its handler executed. -/
theorem exec_caught (mask0 : sigset_t) (x : Int) (hx : x = SIGINT ∨ x = SIGTERM)
    (es : List Event) :
    exec freeze.program mask0 (.result 0 :: .result 0 :: .deliver x :: .run :: es)
      = { suspended mask0 with
          frames := [{ signum := x, body := freeze.catcher x, saved := mask0 }],
          blocked := [x], entered := [x], ops := setupOps ++ [.exit 0], status := some 0 } := by
  rw [exec_installed, List.foldl_cons, List.foldl_cons, step_suspended_deliver mask0 x hx]
  exact foldl_step_of_ended _ _ _ rfl

/-- The state after a signal other than SIGINT and SIGTERM was delivered to the
suspended process. -/
theorem exec_other (mask0 : sigset_t) (s : Int) (hs : ¬ (s = SIGINT ∨ s = SIGTERM)) :
    exec freeze.program mask0 [.result 0, .result 0, .deliver s]
      = if defaultKills s = true then { suspended mask0 with killed := some s }
        else suspended mask0 := by
  have he : exec freeze.program mask0 [.result 0, .result 0, .deliver s]
      = stepDeliver freeze.program (suspended mask0) s := by
    rw [exec_installed]; rfl
  have hh : handlerOf [(SIGTERM, act), (SIGINT, act)] s = none := by
    rw [handlerOf_installed, if_neg (fun h => hs h.symm)]
  rw [he]
  by_cases hk : defaultKills s = true
  · simp [stepDeliver, hh, hk, suspended]
  · simp [stepDeliver, hh, hk, suspended]

theorem schedule_outcome_installed (mask0 : sigset_t) (o : Outcome) :
    (exec freeze.program mask0 (.result 0 :: .result 0 :: o.events)).status = o.status ∧
    (exec freeze.program mask0 (.result 0 :: .result 0 :: o.events)).killed = o.killer ∧
    (exec freeze.program mask0 (.result 0 :: .result 0 :: o.events)).ops.filter Op.isExit
      = o.exits := by
  cases o with
  | returned r =>
    simp only [Outcome.events]
    rw [exec_suspend_returned mask0 r []]
    by_cases h : r = -1
    · subst h; exact ⟨rfl, rfl, rfl⟩
    · simp only [if_neg h]
      refine ⟨rfl, rfl, ?_⟩
      simp [Outcome.exits, h, setupOps, Op.isExit]
  | sigint =>
    simp only [Outcome.events]
    rw [exec_caught mask0 SIGINT (Or.inl rfl) []]
    exact ⟨rfl, rfl, rfl⟩
  | sigterm =>
    simp only [Outcome.events]
    rw [exec_caught mask0 SIGTERM (Or.inr rfl) []]
    exact ⟨rfl, rfl, rfl⟩
  | other s =>
    simp only [Outcome.events]
    by_cases hs : s = SIGINT ∨ s = SIGTERM
    · have e1 : exec freeze.program mask0 [.result 0, .result 0, .deliver s]
          = step freeze.program (suspended mask0) (.deliver s) := by
        rw [exec_installed]; rfl
      rw [e1, step_suspended_deliver mask0 s hs]
      refine ⟨rfl, ?_, rfl⟩
      simp [Outcome.killer, hs, suspended]
    · rw [exec_other mask0 s hs]
      by_cases hk : defaultKills s = true
      · simp only [if_pos hk]
        refine ⟨rfl, ?_, rfl⟩
        simp [Outcome.killer, hs, hk]
      · simp only [if_neg hk]
        refine ⟨rfl, ?_, rfl⟩
        simp [Outcome.killer, hs, hk, suspended]

theorem schedule_outcome (mask0 : sigset_t) (r1 r2 : Int) (o : Outcome) :
    (exec freeze.program mask0 (schedule r1 r2 o)).status
        = (if r1 ≠ 0 ∨ r2 ≠ 0 then some 1 else o.status) ∧
    (exec freeze.program mask0 (schedule r1 r2 o)).killed
        = (if r1 ≠ 0 ∨ r2 ≠ 0 then none else o.killer) ∧
    (exec freeze.program mask0 (schedule r1 r2 o)).ops.filter Op.isExit
        = (if r1 ≠ 0 ∨ r2 ≠ 0 then [.exit 1] else o.exits) := by
  unfold schedule
  by_cases h1 : r1 = 0
  · subst h1
    by_cases h2 : r2 = 0
    · subst h2
      have hif : ¬ ((0 : Int) ≠ 0 ∨ (0 : Int) ≠ 0) := by simp
      simp only [if_neg hif]
      exact schedule_outcome_installed mask0 o
    · rw [exec_sigterm_failed mask0 r2 h2]
      simp [h2, Op.isExit]
  · rw [exec_sigint_failed mask0 r1 h1]
    simp [h1, Op.isExit]

theorem status_cases (mask0 : sigset_t) (es : List Event) :
    (exec freeze.program mask0 es).status = none ∨
    (exec freeze.program mask0 es).status = some 0 ∨
    (exec freeze.program mask0 es).status = some 1 := by
  have hs := safe_exec Op.inText freeze.program main_uses catcher_uses mask0 es
  cases h : (exec freeze.program mask0 es).status with
  | none => exact Or.inl rfl
  | some n =>
    right
    rcases hs.status n h with h0 | hmem
    · left; rw [h0]
    · have := hs.ops _ hmem
      rcases this with h0 | h1
      · left; rw [h0]
      · right; rw [h1]

theorem status_one (mask0 : sigset_t) (es : List Event) :
    (exec freeze.program mask0 es).status = some 1 →
      (exec freeze.program mask0 es).killed = none ∧
      handlerOf (exec freeze.program mask0 es).disp SIGTERM = none ∧
      ((exec freeze.program mask0 es).ops
          = [.sigemptyset .act_sa_mask, .sigaction SIGINT act, .exit 1] ∨
       (exec freeze.program mask0 es).ops
          = [.sigemptyset .act_sa_mask, .sigaction SIGINT act, .sigaction SIGTERM act,
             .exit 1]) := by
  intro h1
  obtain ⟨pos, hat⟩ := reach_exec mask0 es
  cases hat.phase with
  | live h0 => rw [h0] at h1; cases h1
  | caught h0 => rw [h0] at h1; cases h1
  | fellOff _ h0 => rw [h0] at h1; cases h1
  | killed s _ h0 => rw [h0] at h1; cases h1
  | exited n hm h0 hk _ ho =>
    rw [h0] at h1
    simp only [Option.some.injEq] at h1
    subst h1
    rw [hat.disp]
    cases pos
    case failedInt => exact ⟨hk, rfl, Or.inl ho⟩
    case failedTerm => exact ⟨hk, rfl, Or.inr ho⟩
    all_goals cases hm

theorem killed_facts (mask0 : sigset_t) (es : List Event) :
    ∀ s, (exec freeze.program mask0 es).killed = some s →
      (exec freeze.program mask0 es).status = none ∧
      handlerOf (exec freeze.program mask0 es).disp s = none ∧
      defaultKills s = true := by
  intro s hs
  obtain ⟨pos, hat⟩ := reach_exec mask0 es
  cases hat.phase with
  | live _ h0 => rw [h0] at hs; cases hs
  | caught _ h0 => rw [h0] at hs; cases hs
  | exited n _ _ h0 => rw [h0] at hs; cases hs
  | fellOff _ _ h0 => rw [h0] at hs; cases hs
  | killed t hk h0 _ hh hd =>
    rw [hk] at hs
    simp only [Option.some.injEq] at hs
    subst hs
    rw [hat.disp]
    exact ⟨h0, hh, hd⟩

theorem burst_exec (mask0 : sigset_t) (es : List Event)
    (hes : ∀ e ∈ es, e = .run ∨ e = .deliver SIGINT ∨ e = .deliver SIGTERM) :
    Burst (exec freeze.program mask0 (.result 0 :: .result 0 :: es)) := by
  rw [exec_installed]
  exact burst_foldl es hes _ (burst_suspended mask0)

theorem exec_snoc (mask0 : sigset_t) (es : List Event) (e : Event) :
    exec freeze.program mask0 (.result 0 :: .result 0 :: (es ++ [e]))
      = step freeze.program (exec freeze.program mask0 (.result 0 :: .result 0 :: es)) e := by
  rw [exec_installed, exec_installed, List.foldl_append]; rfl

/-- Deliveries one at a time. -/
theorem burst_serial (mask0 : sigset_t) (x : Int) (xs : List Int)
    (hx : x = SIGINT ∨ x = SIGTERM) :
    (exec freeze.program mask0 (.result 0 :: .result 0 :: serial (x :: xs))).entered = [x] ∧
    (exec freeze.program mask0 (.result 0 :: .result 0 :: serial (x :: xs))).ops
      = (exec freeze.program mask0 [.result 0, .result 0]).ops ++ [.exit 0] ∧
    (exec freeze.program mask0 (.result 0 :: .result 0 :: serial (x :: xs))).status = some 0 := by
  have e0 : exec freeze.program mask0 [.result 0, .result 0] = suspended mask0 := by
    rw [exec_installed]; rfl
  have hser : exec freeze.program mask0 (.result 0 :: .result 0 :: serial (x :: xs))
      = exec freeze.program mask0 (.result 0 :: .result 0 :: .deliver x :: .run :: serial xs) :=
    rfl
  rw [hser, exec_caught mask0 x hx, e0]
  exact ⟨rfl, rfl, rfl⟩

/-- The next delivery to a running process in a burst. -/
theorem burst_next (mask0 : sigset_t) (es : List Event)
    (hes : ∀ e ∈ es, e = .run ∨ e = .deliver SIGINT ∨ e = .deliver SIGTERM)
    (y : Int) (hy : y = SIGINT ∨ y = SIGTERM) :
    (exec freeze.program mask0 (.result 0 :: .result 0 :: es)).status = none →
      (exec freeze.program mask0 (.result 0 :: .result 0 :: (es ++ [.deliver y]))).entered
        = (if y ∈ (exec freeze.program mask0 (.result 0 :: .result 0 :: es)).entered
           then (exec freeze.program mask0 (.result 0 :: .result 0 :: es)).entered
           else (exec freeze.program mask0 (.result 0 :: .result 0 :: es)).entered ++ [y]) := by
  intro hst
  have hb := burst_exec mask0 es hes
  rw [exec_snoc]
  exact (burst_deliver _ y hy hb (not_ended hst hb.alive)).2

/-- The end of a burst with at least one delivery. -/
theorem burst_end (mask0 : sigset_t) (es later : List Event)
    (hes : ∀ e ∈ es, e = .run ∨ e = .deliver SIGINT ∨ e = .deliver SIGTERM)
    (hd : ∃ x, Event.deliver x ∈ es) :
    (exec freeze.program mask0 (.result 0 :: .result 0 :: (es ++ [.run]))).status = some 0 ∧
    (exec freeze.program mask0 (.result 0 :: .result 0 :: (es ++ [.run]))).ops.filter Op.isExit
      = [.exit 0] ∧
    (exec freeze.program mask0 (.result 0 :: .result 0 :: (es ++ [.run]))).ops
      = (exec freeze.program mask0 [.result 0, .result 0]).ops ++ [.exit 0] ∧
    (exec freeze.program mask0 (.result 0 :: .result 0 :: (es ++ [.run]))).entered.Nodup ∧
    (∀ x ∈ (exec freeze.program mask0 (.result 0 :: .result 0 :: (es ++ [.run]))).entered,
      x = SIGINT ∨ x = SIGTERM) ∧
    1 ≤ (exec freeze.program mask0 (.result 0 :: .result 0 :: (es ++ [.run]))).entered.length ∧
    (exec freeze.program mask0 (.result 0 :: .result 0 :: (es ++ [.run]))).entered.length ≤ 2 ∧
    (exec freeze.program mask0 (.result 0 :: .result 0 :: (es ++ [.run] ++ later))).ops
      = (exec freeze.program mask0 (.result 0 :: .result 0 :: (es ++ [.run]))).ops ∧
    (exec freeze.program mask0 (.result 0 :: .result 0 :: (es ++ [.run] ++ later))).entered
      = (exec freeze.program mask0 (.result 0 :: .result 0 :: (es ++ [.run]))).entered ∧
    (exec freeze.program mask0 (.result 0 :: .result 0 :: (es ++ [.run] ++ later))).status
      = some 0 := by
  have e0 : exec freeze.program mask0 [.result 0, .result 0] = suspended mask0 := by
    rw [exec_installed]; rfl
  have hes1 : ∀ e ∈ es ++ [Event.run],
      e = .run ∨ e = .deliver SIGINT ∨ e = .deliver SIGTERM := by
    intro e he
    rcases List.mem_append.mp he with he | he
    · exact hes e he
    · left; simpa using he
  have hb := burst_exec mask0 (es ++ [Event.run]) hes1
  have hbp := burst_exec mask0 es hes
  have hentp : (exec freeze.program mask0 (.result 0 :: .result 0 :: es)).entered ≠ [] := by
    rw [exec_installed]
    exact entered_of_delivery es hes _ (burst_suspended mask0) (Or.inr hd)
  have hent : (exec freeze.program mask0 (.result 0 :: .result 0 :: (es ++ [.run]))).entered
      ≠ [] := by
    rw [exec_snoc]
    exact (at_stays .inSuspend _ .run hbp.place hentp).2
  -- the last `run` leaves no running process with an active handler
  have hterm : (exec freeze.program mask0 (.result 0 :: .result 0 :: (es ++ [.run]))).status
      = some 0 := by
    rw [exec_snoc]
    cases hen : (exec freeze.program mask0 (.result 0 :: .result 0 :: es)).ended with
    | true =>
      rw [step_of_ended _ _ _ hen]
      cases hs : (exec freeze.program mask0 (.result 0 :: .result 0 :: es)).status with
      | none => simp [State.ended, hs, hbp.alive] at hen
      | some n => rw [(burst_status hbp hs).1]
    | false =>
      have hfr := frames_ne_nil_of_entered hbp.place hentp
      cases hfr2 : (exec freeze.program mask0 (.result 0 :: .result 0 :: es)).frames with
      | nil => exact absurd hfr2 hfr
      | cons f fs =>
        have hfb : f.body = Prog.exit 0 := hbp.place.bodies f (by simp [hfr2])
        simp [step, hen, stepRun, hfr2, hfb]
  have hops := (burst_status hb hterm).2.2
  have hlater : exec freeze.program mask0 (.result 0 :: .result 0 :: (es ++ [.run] ++ later))
      = exec freeze.program mask0 (.result 0 :: .result 0 :: (es ++ [.run])) := by
    have := exec_append freeze.program mask0 (.result 0 :: .result 0 :: (es ++ [.run])) later
    rw [List.cons_append, List.cons_append] at this
    rw [this]
    exact foldl_step_of_ended _ later _ (ended_of_status hterm)
  refine ⟨hterm, ?_, ?_, hb.place.nodup, hb.place.sigs, ?_,
    length_le_two _ hb.place.nodup hb.place.sigs, ?_, ?_, ?_⟩
  · rw [hops]; rfl
  · rw [hops, e0]; rfl
  · exact List.length_pos.mpr hent
  · rw [hlater]
  · rw [hlater]
  · rw [hlater]; exact hterm

theorem stepDeliver_status (p : Program) (st : State) (x : Int) :
    (stepDeliver p st x).status = st.status := by
  unfold stepDeliver
  split
  · rfl
  · split
    · split <;> rfl
    · rfl

/-- Two deliveries with no handler step in between. -/
theorem burst_pair (mask0 : sigset_t) (x y : Int) (hx : x = SIGINT ∨ x = SIGTERM)
    (hy : y = SIGINT ∨ y = SIGTERM) :
    (exec freeze.program mask0 [.result 0, .result 0, .deliver x, .deliver y]).entered
        = (if y = x then [x] else [x, y]) ∧
    (exec freeze.program mask0 [.result 0, .result 0, .deliver x, .deliver y]).status = none ∧
    (exec freeze.program mask0 [.result 0, .result 0, .deliver x, .deliver y]).killed = none ∧
    (exec freeze.program mask0 [.result 0, .result 0, .deliver x, .deliver y, .run]).status
        = some 0 ∧
    (exec freeze.program mask0 [.result 0, .result 0, .deliver x, .deliver y, .run]).ops.filter
        Op.isExit = [.exit 0] := by
  have hes1 : ∀ e ∈ [Event.deliver x],
      e = .run ∨ e = .deliver SIGINT ∨ e = .deliver SIGTERM := by
    intro e he
    rw [List.mem_singleton.mp he]
    rcases hx with hx | hx <;> subst hx <;> simp
  have hes2 : ∀ e ∈ [Event.deliver x, Event.deliver y],
      e = .run ∨ e = .deliver SIGINT ∨ e = .deliver SIGTERM := by
    intro e he
    rcases List.mem_cons.mp he with he | he
    · rw [he]; rcases hx with hx | hx <;> subst hx <;> simp
    · rw [List.mem_singleton.mp he]; rcases hy with hy | hy <;> subst hy <;> simp
  have e1 : exec freeze.program mask0 [.result 0, .result 0, .deliver x]
      = step freeze.program (suspended mask0) (.deliver x) := by
    rw [exec_installed]; rfl
  have hs1 := step_suspended_deliver mask0 x hx
  have hst1 : (exec freeze.program mask0 [.result 0, .result 0, .deliver x]).status = none := by
    rw [e1, hs1]; rfl
  have hen1 : (exec freeze.program mask0 [.result 0, .result 0, .deliver x]).entered = [x] := by
    rw [e1, hs1]
  have hb1 := burst_exec mask0 [.deliver x] hes1
  have hnext := burst_next mask0 [.deliver x] hes1 y hy hst1
  have e2 : exec freeze.program mask0 [.result 0, .result 0, .deliver x, .deliver y]
      = exec freeze.program mask0 (.result 0 :: .result 0 :: ([.deliver x] ++ [.deliver y])) :=
    rfl
  have hend := burst_end mask0 [.deliver x, .deliver y] [] hes2 ⟨x, by simp⟩
  refine ⟨?_, ?_, ?_, hend.1, hend.2.1⟩
  · rw [e2, hnext, hen1]
    by_cases hyx : y = x
    · simp [hyx]
    · simp [hyx]
  · rw [e2, exec_snoc]
    have : step freeze.program (exec freeze.program mask0 [.result 0, .result 0, .deliver x])
        (.deliver y)
        = stepDeliver freeze.program
            (exec freeze.program mask0 [.result 0, .result 0, .deliver x]) y := by
      simp [step, not_ended hst1 hb1.alive]
    rw [this, stepDeliver_status]
    exact hst1
  · exact (burst_exec mask0 [.deliver x, .deliver y] hes2).alive

/-- The wait on runs where `main` went on into it. -/
theorem wait_entered (mask0 : sigset_t) (es : List Event) :
    (∃ rest, (rest = [] ∨ rest = [Op.exit 0]) ∧
      (exec freeze.program mask0 (.result 0 :: .result 0 :: es)).ops
        = [.sigemptyset .act_sa_mask, .sigaction SIGINT act, .sigaction SIGTERM act,
           .sigemptyset .set, .sigsuspend []] ++ rest) ∧
    (exec freeze.program mask0 (.result 0 :: .result 0 :: es)).ops.filter Op.isSigsuspend
      = [.sigsuspend []] ∧
    (exec freeze.program mask0 (.result 0 :: .result 0 :: es)).disp
      = (exec freeze.program mask0 [.result 0, .result 0]).disp := by
  have hd : (exec freeze.program mask0 (.result 0 :: .result 0 :: es)).disp
      = (exec freeze.program mask0 [.result 0, .result 0]).disp := by
    rw [disp_installed mask0 es, disp_installed mask0 []]
  rcases ops_installed mask0 es with h | h
  · refine ⟨⟨[], Or.inl rfl, ?_⟩, ?_, hd⟩
    · rw [h]; rfl
    · rw [h]; rfl
  · refine ⟨⟨[.exit 0], Or.inr rfl, ?_⟩, ?_, hd⟩
    · rw [h]; rfl
    · rw [h]; rfl

/-- The wait, for a state at a place after both installations. -/
theorem wait_facts (st : State) (pos : Pos) (hk : 7 ≤ pos.rank) (hat : At pos st) :
    (∃ pre rest,
        (pre = [] ∨ pre = [Op.sigemptyset .set] ∨
          pre = [Op.sigemptyset .set, Op.sigsuspend []]) ∧
        (rest = [] ∨ rest = [Op.exit 0]) ∧
        st.ops = [.sigemptyset .act_sa_mask, .sigaction SIGINT act, .sigaction SIGTERM act]
            ++ pre ++ rest) ∧
    (st.ops.filter Op.isSigsuspend = [] ∨ st.ops.filter Op.isSigsuspend = [.sigsuspend []]) ∧
    st.ops.filter Op.isSigaction = [.sigaction SIGINT act, .sigaction SIGTERM act] ∧
    st.disp = [(SIGTERM, act), (SIGINT, act)] ∧
    (st.ops.filter Op.isSigsuspend = [] → st.ended = true →
        (st.status = some 0 ∧ st.entered ≠ []) ∨ ∃ s, st.killed = some s) := by
  have hdisp : st.disp = [(SIGTERM, act), (SIGINT, act)] := by
    rw [hat.disp]
    cases pos <;> first | rfl | (simp [Pos.rank] at hk)
  have hpre : pos.ops = [.sigemptyset .act_sa_mask, .sigaction SIGINT act,
        .sigaction SIGTERM act] ++ [] ∨
      pos.ops = [.sigemptyset .act_sa_mask, .sigaction SIGINT act, .sigaction SIGTERM act]
        ++ [Op.sigemptyset .set] ∨
      pos.ops = [.sigemptyset .act_sa_mask, .sigaction SIGINT act, .sigaction SIGTERM act]
        ++ [Op.sigemptyset .set, Op.sigsuspend []] := by
    cases pos
    case gotBoth => exact Or.inl rfl
    case madeSet => exact Or.inr (Or.inl rfl)
    case inSuspend => exact Or.inr (Or.inr rfl)
    case wokeExit => exact Or.inr (Or.inr rfl)
    case wokeEnd => exact Or.inr (Or.inr rfl)
    all_goals simp [Pos.rank] at hk
  have hrest : st.ops = pos.ops ++ [] ∨ st.ops = pos.ops ++ [.exit 0] := by
    rcases ops_of_at hat with h | h | ⟨_, h | h⟩
    · left; rw [h]; simp
    · right; exact h
    · subst h; simp [Pos.rank] at hk
    · subst h; simp [Pos.rank] at hk
  have hshape : ∃ pre rest,
      (pre = [] ∨ pre = [Op.sigemptyset .set] ∨
        pre = [Op.sigemptyset .set, Op.sigsuspend []]) ∧
      (rest = [] ∨ rest = [Op.exit 0]) ∧
      st.ops = [.sigemptyset .act_sa_mask, .sigaction SIGINT act, .sigaction SIGTERM act]
          ++ pre ++ rest := by
    rcases hpre with hp | hp | hp <;> rcases hrest with hr | hr
    · exact ⟨[], [], Or.inl rfl, Or.inl rfl, by rw [hr, hp]⟩
    · exact ⟨[], [.exit 0], Or.inl rfl, Or.inr rfl, by rw [hr, hp]⟩
    · exact ⟨[.sigemptyset .set], [], Or.inr (Or.inl rfl), Or.inl rfl, by rw [hr, hp]⟩
    · exact ⟨[.sigemptyset .set], [.exit 0], Or.inr (Or.inl rfl), Or.inr rfl, by rw [hr, hp]⟩
    · exact ⟨[.sigemptyset .set, .sigsuspend []], [], Or.inr (Or.inr rfl), Or.inl rfl,
        by rw [hr, hp]⟩
    · exact ⟨[.sigemptyset .set, .sigsuspend []], [.exit 0], Or.inr (Or.inr rfl), Or.inr rfl,
        by rw [hr, hp]⟩
  obtain ⟨pre, rest, hpre', hrest', hops⟩ := hshape
  refine ⟨⟨pre, rest, hpre', hrest', hops⟩, ?_, ?_, hdisp, ?_⟩
  · rw [hops]
    rcases hpre' with h | h | h <;> rcases hrest' with h' | h' <;> subst h <;> subst h' <;>
      first | exact Or.inl rfl | exact Or.inr rfl
  · rw [hops]
    rcases hpre' with h | h | h <;> rcases hrest' with h' | h' <;> subst h <;> subst h' <;> rfl
  · intro hnone hended
    cases hat.phase with
    | live h1 h2 _ _ => simp [State.ended, h1, h2] at hended
    | caught h1 _ h3 _ => exact Or.inl ⟨h1, h3⟩
    | killed s h1 _ _ _ _ => exact Or.inr ⟨s, h1⟩
    | exited n hm _ _ _ ho =>
      cases pos
      case wokeExit => rw [ho] at hnone; cases hnone
      case failedInt => simp [Pos.rank] at hk
      case failedTerm => simp [Pos.rank] at hk
      all_goals cases hm
    | fellOff hm _ _ _ ho =>
      cases pos
      case wokeEnd => rw [ho] at hnone; cases hnone
      all_goals cases hm

/-- A state with both handlers installed is at a place after both
installations. -/
theorem rank_of_both_installed {pos : Pos} {st : State} (hat : At pos st)
    (hd : st.disp = [(SIGTERM, act), (SIGINT, act)]) : 7 ≤ pos.rank := by
  rw [hat.disp] at hd
  cases pos <;> first | (simp [Pos.rank]; done) | (simp [Pos.disp] at hd)

/-- The wait on every run, once both installations have succeeded. -/
theorem wait_general (mask0 : sigset_t) (es : List Event)
    (hd : (exec freeze.program mask0 es).disp = [(SIGTERM, act), (SIGINT, act)]) :
    (∃ pre rest,
        (pre = [] ∨ pre = [Op.sigemptyset .set] ∨
          pre = [Op.sigemptyset .set, Op.sigsuspend []]) ∧
        (rest = [] ∨ rest = [Op.exit 0]) ∧
        (exec freeze.program mask0 es).ops
          = [.sigemptyset .act_sa_mask, .sigaction SIGINT act, .sigaction SIGTERM act]
            ++ pre ++ rest) ∧
    ((exec freeze.program mask0 es).ops.filter Op.isSigsuspend = [] ∨
     (exec freeze.program mask0 es).ops.filter Op.isSigsuspend = [.sigsuspend []]) ∧
    (exec freeze.program mask0 es).ops.filter Op.isSigaction
        = [.sigaction SIGINT act, .sigaction SIGTERM act] ∧
    ((exec freeze.program mask0 es).ops.filter Op.isSigsuspend = [] →
      (exec freeze.program mask0 es).ended = true →
        ((exec freeze.program mask0 es).status = some 0 ∧
         (exec freeze.program mask0 es).entered ≠ []) ∨
        ∃ s, (exec freeze.program mask0 es).killed = some s) := by
  obtain ⟨pos, hat⟩ := reach_exec mask0 es
  obtain ⟨h1, h2, h3, _, h5⟩ := wait_facts _ pos (rank_of_both_installed hat hd) hat
  exact ⟨h1, h2, h3, h5⟩

/-- The `sigaction` calls and the handlers of runs in which the second
installation has just returned 0. -/
theorem installed_fine (mask0 : sigset_t) (es : List Event) :
    (exec freeze.program mask0 (.result 0 :: .returns 0 :: es)).ops.filter Op.isSigaction
        = [.sigaction SIGINT act, .sigaction SIGTERM act] ∧
    (exec freeze.program mask0 (.result 0 :: .returns 0 :: es)).disp
        = [(SIGTERM, act), (SIGINT, act)] := by
  obtain ⟨pos, hk, hat⟩ := reach_installed mask0 es
  obtain ⟨_, _, h3, h4, _⟩ := wait_facts _ pos hk hat
  exact ⟨h3, h4⟩

/-- How an ended process ended. -/
theorem ended_cases (mask0 : sigset_t) (es : List Event) :
    (exec freeze.program mask0 es).ended = true →
      (((exec freeze.program mask0 es).status = some 0 ∨
        (exec freeze.program mask0 es).status = some 1) ∧
       (exec freeze.program mask0 es).killed = none) ∨
      ((exec freeze.program mask0 es).status = none ∧
       ∃ s, (exec freeze.program mask0 es).killed = some s) := by
  intro he
  obtain ⟨pos, hat⟩ := reach_exec mask0 es
  cases hat.phase with
  | live h1 h2 _ _ => simp [State.ended, h1, h2] at he
  | caught h1 h2 _ _ => exact Or.inl ⟨Or.inl h1, h2⟩
  | fellOff _ h1 h2 _ _ => exact Or.inl ⟨Or.inl h1, h2⟩
  | killed s h1 h2 _ _ _ => exact Or.inr ⟨h2, s, h1⟩
  | exited n hm h1 h2 _ _ =>
    cases pos
    case failedInt => cases hm; exact Or.inl ⟨Or.inr h1, h2⟩
    case failedTerm => cases hm; exact Or.inl ⟨Or.inr h1, h2⟩
    case wokeExit => cases hm; exact Or.inl ⟨Or.inl h1, h2⟩
    all_goals cases hm

/-! ## Properties of the specification -/

/-- C1: whatever the two `sigaction` calls return, if the SIGINT installation or
the SIGTERM installation returns a non-zero value the process terminates with
exit status 1, and no `sigsuspend` call is ever performed on that run, whatever
events follow. -/
theorem install_failure_exits_1 (c : SourceFile) (mask0 : sigset_t) (r1 r2 : Int)
    (h : r1 ≠ 0 ∨ r2 ≠ 0) (es : List Event) :
    (exec c.program mask0 (.result r1 :: .result r2 :: es)).status = some 1 ∧
    ∀ mask, Op.sigsuspend mask ∉
      (exec c.program mask0 (.result r1 :: .result r2 :: es)).ops := by
  have hc : c.program = freeze.program := by cases c <;> rfl
  rw [hc]
  by_cases h1 : r1 = 0
  · subst h1
    have h2 : r2 ≠ 0 := by
      rcases h with h | h
      · exact absurd rfl h
      · exact h
    rw [exec_sigterm_failed mask0 r2 h2 es]
    simp
  · rw [exec_sigint_failed mask0 r1 h1 (.result r2 :: es)]
    simp

theorem install_failure_exits_1_witness :
    ((-1 : Int) ≠ 0 ∨ (0 : Int) ≠ 0) ∧
    (exec SourceFile.docker_freeze.program []
      [.result (-1), .result 0, .deliver SIGINT, .run]).status = some 1 ∧
    ∀ mask, Op.sigsuspend mask ∉
      (exec SourceFile.docker_freeze.program []
        [.result (-1), .result 0, .deliver SIGINT, .run]).ops :=
  ⟨Or.inl (by decide),
   install_failure_exits_1 .docker_freeze [] (-1) 0 (Or.inl (by decide)) [.deliver SIGINT, .run]⟩

/-- C2: on a run in which both `sigaction` calls succeeded, a SIGINT or SIGTERM
delivered to the suspended process enters `catcher` with that signal number,
keeping the mask from before `sigsuspend` to put back; `catcher` is `exit(0)` and
nothing else for every signal number; running the handler terminates the
process with status 0 after the single operation `exit(0)`; and whatever events
follow the delivery, `main` stays inside the `sigsuspend` call: it never
continues after it. -/
theorem signal_runs_catcher (c : SourceFile) (mask0 : sigset_t) (x : Int)
    (hx : x = SIGINT ∨ x = SIGTERM) (es : List Event) :
    ((exec c.program mask0 [.result 0, .result 0, .deliver x]).entered = [x] ∧
     (handlerOf (exec c.program mask0 [.result 0, .result 0]).disp x).map
        (fun a => a.sa_handler) = some HandlerFn.catcher ∧
     (exec c.program mask0 [.result 0, .result 0, .deliver x]).frames.map
        (fun f => (f.signum, f.saved)) = [(x, mask0)] ∧
     ∀ f ∈ (exec c.program mask0 [.result 0, .result 0, .deliver x]).frames,
        f.body = c.program.fn .catcher x) ∧
    (∀ signum : Int, c.program.fn .catcher signum = Prog.exit 0) ∧
    ((exec c.program mask0 [.result 0, .result 0, .deliver x, .run]).status = some 0 ∧
     (exec c.program mask0 [.result 0, .result 0, .deliver x, .run]).ops
        = (exec c.program mask0 [.result 0, .result 0]).ops ++ [.exit 0]) ∧
    (exec c.program mask0 (.result 0 :: .result 0 :: .deliver x :: es)).main
        = suspendedMain := by
  have hc : c.program = freeze.program := by cases c <;> rfl
  rw [hc]
  have hs := step_suspended_deliver mask0 x hx
  have e1 : exec freeze.program mask0 [.result 0, .result 0, .deliver x]
      = step freeze.program (suspended mask0) (.deliver x) := by
    rw [exec_installed]; rfl
  have e2 : exec freeze.program mask0 [.result 0, .result 0, .deliver x, .run]
      = step freeze.program (step freeze.program (suspended mask0) (.deliver x)) .run := by
    rw [exec_installed]; rfl
  have e0 : exec freeze.program mask0 [.result 0, .result 0] = suspended mask0 := by
    rw [exec_installed]; rfl
  refine ⟨⟨?_, ?_, ?_, ?_⟩, fun _ => rfl, ⟨?_, ?_⟩, ?_⟩
  · rw [e1, hs]
  · rw [e0]
    show Option.map _ (handlerOf [(SIGTERM, act), (SIGINT, act)] x) = _
    rw [handlerOf_installed, if_pos hx.symm]
    rfl
  · rw [e1, hs]; rfl
  · rw [e1, hs]
    intro f hf
    have : f = _ := List.mem_singleton.mp hf
    rw [this]; rfl
  · rw [e2, hs]; rfl
  · rw [e2, hs, e0]; rfl
  · rw [exec_installed, List.foldl_cons]
    have hat : At .inSuspend (step freeze.program (suspended mask0) (.deliver x)) := by
      rw [hs]
      rw [← hs]
      exact (burst_deliver _ x hx (burst_suspended mask0) rfl).1.place
    have hne : (step freeze.program (suspended mask0) (.deliver x)).entered ≠ [] := by
      rw [hs]; simp
    exact (at_stays_foldl .inSuspend es _ hat hne).1.main

theorem signal_runs_catcher_witness :
    (SIGTERM = SIGINT ∨ SIGTERM = SIGTERM) ∧
    (exec SourceFile.docker_freeze.program [SIGTERM]
      [.result 0, .result 0, .deliver SIGTERM, .result (-1), .run, .result (-1)]).main
      = suspendedMain :=
  ⟨Or.inr rfl,
   (signal_runs_catcher .docker_freeze [SIGTERM] SIGTERM (Or.inr rfl)
      [.result (-1), .run, .result (-1)]).2.2.2⟩

/-- C3: on a run in which both handlers were installed, if `sigsuspend` returns
the value `r`, the process terminates with exit status 0 for every `r`; the
`exit(0)` call of `main` is performed exactly when `r` is -1, and for any other
value `main` performs no further operation and ends by reaching its closing
brace. -/
theorem sigsuspend_return_exits_0 (c : SourceFile) (mask0 : sigset_t) (r : Int)
    (es : List Event) :
    (exec c.program mask0 (.result 0 :: .result 0 :: .result r :: es)).status = some 0 ∧
    (exec c.program mask0 (.result 0 :: .result 0 :: .result r :: es)).ops
      = (exec c.program mask0 [.result 0, .result 0]).ops ++
          (if r = -1 then [.exit 0] else []) ∧
    (exec c.program mask0 (.result 0 :: .result 0 :: .result r :: es)).entered = [] := by
  have hc : c.program = freeze.program := by cases c <;> rfl
  rw [hc]
  have e0 : exec freeze.program mask0 [.result 0, .result 0] = suspended mask0 := by
    rw [exec_installed]; rfl
  rw [exec_suspend_returned, e0]
  by_cases h : r = -1
  · simp [h, suspended]
  · simp [h, suspended]

/-- C4, as the code has it: on a run in which both installations succeeded,
SIGKILL delivered to the suspended process ends it with no exit status at all,
neither 0 nor 1, and nothing that happens afterwards gives it one. -/
theorem killed_without_status :
    (exec freeze.program [] (schedule 0 0 (.other SIGKILL))).killed = some SIGKILL ∧
    (exec freeze.program [] (schedule 0 0 (.other SIGKILL))).status = none ∧
    (exec freeze.program [] (schedule 0 0 (.other SIGKILL))).ended = true ∧
    (exec freeze.program [] (schedule 0 0 (.other SIGKILL) ++
      [.deliver SIGTERM, .run, .returns (-1), .proceed, .result (-1)])).status = none := by
  decide

/-- C4 amended.  For every pair of `sigaction` results and every outcome of the
wait, the run stands as follows: if an installation returned non-zero the
process has exited with status 1 after its `exit(1)`; otherwise, when
`sigsuspend` returns or SIGINT or SIGTERM is delivered and handled, it has
exited with status 0 (by an `exit(0)`, except that a return value other than -1
lets `main` reach its closing brace with no `exit` call); and when another
signal is delivered it has no exit status, and was killed if that signal's
default action ends the process.  After any sequence of events at all, the
exit status is absent, 0 or 1; status 1 occurs only with the SIGTERM handler
not installed and the run ending in the `exit(1)` that follows a `sigaction`
call; a killed process has no exit status and was killed by a signal that had
no handler installed and whose default action ends the process; and a process
that has ended has either exited with status 0 or 1 and was not killed, or was
killed and has no exit status. -/
theorem ends_exited_or_killed (c : SourceFile) (mask0 : sigset_t) (r1 r2 : Int)
    (o : Outcome) (es : List Event) :
    ((exec c.program mask0 (schedule r1 r2 o)).status
        = (if r1 ≠ 0 ∨ r2 ≠ 0 then some 1 else o.status) ∧
     (exec c.program mask0 (schedule r1 r2 o)).killed
        = (if r1 ≠ 0 ∨ r2 ≠ 0 then none else o.killer) ∧
     (exec c.program mask0 (schedule r1 r2 o)).ops.filter Op.isExit
        = (if r1 ≠ 0 ∨ r2 ≠ 0 then [.exit 1] else o.exits)) ∧
    ((exec c.program mask0 es).status = none ∨
     (exec c.program mask0 es).status = some 0 ∨
     (exec c.program mask0 es).status = some 1) ∧
    ((exec c.program mask0 es).status = some 1 →
      (exec c.program mask0 es).killed = none ∧
      handlerOf (exec c.program mask0 es).disp SIGTERM = none ∧
      ((exec c.program mask0 es).ops
          = [.sigemptyset .act_sa_mask, .sigaction SIGINT act, .exit 1] ∨
       (exec c.program mask0 es).ops
          = [.sigemptyset .act_sa_mask, .sigaction SIGINT act, .sigaction SIGTERM act,
             .exit 1])) ∧
    (∀ s, (exec c.program mask0 es).killed = some s →
      (exec c.program mask0 es).status = none ∧
      handlerOf (exec c.program mask0 es).disp s = none ∧
      defaultKills s = true) ∧
    ((exec c.program mask0 es).ended = true →
      (((exec c.program mask0 es).status = some 0 ∨
        (exec c.program mask0 es).status = some 1) ∧
       (exec c.program mask0 es).killed = none) ∨
      ((exec c.program mask0 es).status = none ∧
       ∃ s, (exec c.program mask0 es).killed = some s)) := by
  have hc : c.program = freeze.program := by cases c <;> rfl
  rw [hc]
  exact ⟨schedule_outcome mask0 r1 r2 o, status_cases mask0 es, status_one mask0 es,
    killed_facts mask0 es, ended_cases mask0 es⟩

theorem ends_exited_or_killed_witness :
    ((exec SourceFile.freeze.program [SIGINT] [.deliver SIGINT, .result 0, .result 3]).status
      = some 1 ∧
     handlerOf (exec SourceFile.freeze.program [SIGINT]
      [.deliver SIGINT, .result 0, .result 3]).disp SIGTERM = none) ∧
    ((exec SourceFile.freeze.program [] [.result 0, .returns 0, .deliver 10]).killed = some 10 ∧
     (exec SourceFile.freeze.program [] [.result 0, .returns 0, .deliver 10]).status = none) :=
  ⟨⟨by decide,
    ((ends_exited_or_killed .freeze [SIGINT] 0 0 (.returned 0)
      [.deliver SIGINT, .result 0, .result 3]).2.2.1 (by decide)).2.1⟩,
   ⟨by decide,
    ((ends_exited_or_killed .freeze [] 0 0 (.returned 0)
      [.result 0, .returns 0, .deliver 10]).2.2.2.1 10 (by decide)).1⟩⟩

/-- C5: on every run in which both installations succeeded, the `sigaction`
calls performed are exactly two, the first for SIGINT and the second for
SIGTERM, both with the same action: handler `catcher`, empty `sa_mask`,
`sa_flags` 0; and these two are the handlers installed.  This holds when `main`
went on into the wait and also whatever happens from the return of the second
`sigaction` call on. -/
theorem installs_exactly_two (c : SourceFile) (mask0 : sigset_t) (es : List Event) :
    (exec c.program mask0 (.result 0 :: .result 0 :: es)).ops.filter Op.isSigaction
      = [.sigaction SIGINT { sa_handler := .catcher, sa_mask := [], sa_flags := 0 },
         .sigaction SIGTERM { sa_handler := .catcher, sa_mask := [], sa_flags := 0 }] ∧
    (exec c.program mask0 (.result 0 :: .result 0 :: es)).disp
      = [(SIGTERM, { sa_handler := .catcher, sa_mask := [], sa_flags := 0 }),
         (SIGINT, { sa_handler := .catcher, sa_mask := [], sa_flags := 0 })] ∧
    (exec c.program mask0 (.result 0 :: .returns 0 :: es)).ops.filter Op.isSigaction
      = [.sigaction SIGINT { sa_handler := .catcher, sa_mask := [], sa_flags := 0 },
         .sigaction SIGTERM { sa_handler := .catcher, sa_mask := [], sa_flags := 0 }] ∧
    (exec c.program mask0 (.result 0 :: .returns 0 :: es)).disp
      = [(SIGTERM, { sa_handler := .catcher, sa_mask := [], sa_flags := 0 }),
         (SIGINT, { sa_handler := .catcher, sa_mask := [], sa_flags := 0 })] := by
  have hc : c.program = freeze.program := by cases c <;> rfl
  rw [hc]
  refine ⟨?_, disp_installed mask0 es, (installed_fine mask0 es).1,
    (installed_fine mask0 es).2⟩
  rcases ops_installed mask0 es with h | h <;> rw [h] <;> rfl

/-- C6: on every run, whatever the call results, deliveries and handler
executions, every external operation performed is a `sigemptyset`, `sigaction`,
`sigsuspend` or `exit` call: none is an output operation. -/
theorem no_output (c : SourceFile) (mask0 : sigset_t) (es : List Event) (op : Op)
    (h : op ∈ (exec c.program mask0 es).ops) :
    op.isOutput = false ∧
    ((∃ dst, op = .sigemptyset dst) ∨ (∃ signum a, op = .sigaction signum a) ∨
     (∃ mask, op = .sigsuspend mask) ∨ (∃ status, op = .exit status)) := by
  have hc : c.program = freeze.program := by cases c <;> rfl
  rw [hc] at h
  have hs := (safe_exec Op.inText freeze.program main_uses catcher_uses mask0 es).ops op h
  cases op with
  | sigemptyset dst => exact ⟨rfl, Or.inl ⟨dst, rfl⟩⟩
  | sigaction signum a => exact ⟨rfl, Or.inr (Or.inl ⟨signum, a, rfl⟩)⟩
  | sigsuspend mask => exact ⟨rfl, Or.inr (Or.inr (Or.inl ⟨mask, rfl⟩))⟩
  | exit status => exact ⟨rfl, Or.inr (Or.inr (Or.inr ⟨status, rfl⟩))⟩
  | write fd bytes => exact absurd hs (by simp [Op.inText])

theorem no_output_witness :
    Op.exit 0 ∈ (exec SourceFile.docker_freeze.program []
      [.result 0, .result 0, .deliver SIGTERM, .run]).ops ∧
    (Op.exit 0).isOutput = false :=
  ⟨by decide,
   (no_output .docker_freeze [] [.result 0, .result 0, .deliver SIGTERM, .run] (.exit 0)
      (by decide)).1⟩

/-- C7, as the code has it: a SIGINT delivered to the suspended process enters
`catcher` and leaves the process running, and a SIGTERM delivered before that
invocation has executed its `exit(0)` enters `catcher` a second time. -/
theorem handler_entered_twice :
    (exec freeze.program [] [.result 0, .result 0, .deliver SIGINT]).status = none ∧
    (exec freeze.program [] [.result 0, .result 0, .deliver SIGINT]).entered = [SIGINT] ∧
    (exec freeze.program [] [.result 0, .result 0, .deliver SIGINT, .deliver SIGTERM]).entered
      = [SIGINT, SIGTERM] ∧
    (exec freeze.program [] [.result 0, .result 0, .deliver SIGINT, .deliver SIGTERM]).frames.map
      (fun f => f.signum) = [SIGTERM, SIGINT] := by
  decide

/-- C7 amended.  The deliveries are of SIGINT and SIGTERM, to the process
suspended in `sigsuspend`, interleaved in any way with executions of the active
handler.

* One at a time: when each handler is executed before the next delivery,
  `catcher` is entered exactly once, for the first signal `x`, one `exit(0)` is
  performed and the status is 0.
* Two overlapping: when `y` is delivered after `x` and before the invocation for
  `x` has executed `exit(0)`, `catcher` is entered a second time if `y` is the
  other signal, and is not entered again if `y` is `x` itself; the process is
  still running after the two deliveries, and once it runs exactly one `exit`
  is performed, with status 0.
* In general, a delivery of `y` to the still running process enters `catcher`
  exactly when `catcher` was not yet entered for `y`.
* Any sequence with at least one delivery, followed by one execution of the
  handler: the process has exited with status 0; exactly one `exit` was
  performed, with status 0, after the setup operations; `catcher` was entered at
  least once, at most once for each of the two signals, so at most twice; and no
  later event changes the operations performed, the handlers entered or the
  status. -/
theorem one_exit_under_signal_bursts (c : SourceFile) (mask0 : sigset_t)
    (es later : List Event)
    (hes : ∀ e ∈ es, e = .run ∨ e = .deliver SIGINT ∨ e = .deliver SIGTERM)
    (hd : ∃ x, Event.deliver x ∈ es) (x : Int) (xs : List Int)
    (hx : x = SIGINT ∨ x = SIGTERM) (y : Int) (hy : y = SIGINT ∨ y = SIGTERM) :
    ((exec c.program mask0 (.result 0 :: .result 0 :: serial (x :: xs))).entered = [x] ∧
     (exec c.program mask0 (.result 0 :: .result 0 :: serial (x :: xs))).ops
        = (exec c.program mask0 [.result 0, .result 0]).ops ++ [.exit 0] ∧
     (exec c.program mask0 (.result 0 :: .result 0 :: serial (x :: xs))).status = some 0) ∧
    ((exec c.program mask0 [.result 0, .result 0, .deliver x, .deliver y]).entered
        = (if y = x then [x] else [x, y]) ∧
     (exec c.program mask0 [.result 0, .result 0, .deliver x, .deliver y]).status = none ∧
     (exec c.program mask0 [.result 0, .result 0, .deliver x, .deliver y]).killed = none ∧
     (exec c.program mask0 [.result 0, .result 0, .deliver x, .deliver y, .run]).status
        = some 0 ∧
     (exec c.program mask0 [.result 0, .result 0, .deliver x, .deliver y, .run]).ops.filter
        Op.isExit = [.exit 0]) ∧
    ((exec c.program mask0 (.result 0 :: .result 0 :: es)).status = none →
      (exec c.program mask0 (.result 0 :: .result 0 :: (es ++ [.deliver y]))).entered
        = (if y ∈ (exec c.program mask0 (.result 0 :: .result 0 :: es)).entered
           then (exec c.program mask0 (.result 0 :: .result 0 :: es)).entered
           else (exec c.program mask0 (.result 0 :: .result 0 :: es)).entered ++ [y])) ∧
    (exec c.program mask0 (.result 0 :: .result 0 :: (es ++ [.run]))).status = some 0 ∧
    (exec c.program mask0 (.result 0 :: .result 0 :: (es ++ [.run]))).ops.filter Op.isExit
      = [.exit 0] ∧
    (exec c.program mask0 (.result 0 :: .result 0 :: (es ++ [.run]))).ops
      = (exec c.program mask0 [.result 0, .result 0]).ops ++ [.exit 0] ∧
    (exec c.program mask0 (.result 0 :: .result 0 :: (es ++ [.run]))).entered.Nodup ∧
    (∀ x ∈ (exec c.program mask0 (.result 0 :: .result 0 :: (es ++ [.run]))).entered,
      x = SIGINT ∨ x = SIGTERM) ∧
    1 ≤ (exec c.program mask0 (.result 0 :: .result 0 :: (es ++ [.run]))).entered.length ∧
    (exec c.program mask0 (.result 0 :: .result 0 :: (es ++ [.run]))).entered.length ≤ 2 ∧
    (exec c.program mask0 (.result 0 :: .result 0 :: (es ++ [.run] ++ later))).ops
      = (exec c.program mask0 (.result 0 :: .result 0 :: (es ++ [.run]))).ops ∧
    (exec c.program mask0 (.result 0 :: .result 0 :: (es ++ [.run] ++ later))).entered
      = (exec c.program mask0 (.result 0 :: .result 0 :: (es ++ [.run]))).entered ∧
    (exec c.program mask0 (.result 0 :: .result 0 :: (es ++ [.run] ++ later))).status
      = some 0 := by
  have hc : c.program = freeze.program := by cases c <;> rfl
  rw [hc]
  obtain ⟨h1, h2, h3, h4, h5, h6, h7, h8, h9, h10⟩ := burst_end mask0 es later hes hd
  exact ⟨burst_serial mask0 x xs hx, burst_pair mask0 x y hx hy,
    burst_next mask0 es hes y hy, h1, h2, h3, h4, h5, h6, h7, h8, h9, h10⟩

theorem one_exit_under_signal_bursts_witness :
    (∀ e ∈ [Event.deliver SIGINT, .deliver SIGTERM, .deliver SIGINT],
      e = .run ∨ e = .deliver SIGINT ∨ e = .deliver SIGTERM) ∧
    (∃ x, Event.deliver x ∈ [Event.deliver SIGINT, .deliver SIGTERM, .deliver SIGINT]) ∧
    (SIGTERM = SIGINT ∨ SIGTERM = SIGTERM) ∧ (SIGINT = SIGINT ∨ SIGINT = SIGTERM) ∧
    (exec SourceFile.docker_freeze.program [] (.result 0 :: .result 0 ::
      serial [SIGTERM, SIGINT, SIGTERM])).entered = [SIGTERM] ∧
    (exec SourceFile.docker_freeze.program []
      [.result 0, .result 0, .deliver SIGTERM, .deliver SIGINT]).entered
      = (if SIGINT = SIGTERM then [SIGTERM] else [SIGTERM, SIGINT]) ∧
    (exec SourceFile.docker_freeze.program [] (.result 0 :: .result 0 ::
      ([.deliver SIGINT, .deliver SIGTERM, .deliver SIGINT] ++ [.run]))).ops.filter Op.isExit
      = [.exit 0] :=
  ⟨by decide, ⟨SIGINT, by decide⟩, Or.inr rfl, Or.inl rfl,
   (one_exit_under_signal_bursts .docker_freeze []
      [.deliver SIGINT, .deliver SIGTERM, .deliver SIGINT] [.deliver SIGTERM]
      (by decide) ⟨SIGINT, by decide⟩ SIGTERM [SIGINT, SIGTERM] (Or.inr rfl)
      SIGINT (Or.inl rfl)).1.1,
   (one_exit_under_signal_bursts .docker_freeze []
      [.deliver SIGINT, .deliver SIGTERM, .deliver SIGINT] [.deliver SIGTERM]
      (by decide) ⟨SIGINT, by decide⟩ SIGTERM [SIGINT, SIGTERM] (Or.inr rfl)
      SIGINT (Or.inl rfl)).2.1.1,
   (one_exit_under_signal_bursts .docker_freeze []
      [.deliver SIGINT, .deliver SIGTERM, .deliver SIGINT] [.deliver SIGTERM]
      (by decide) ⟨SIGINT, by decide⟩ SIGTERM [SIGINT, SIGTERM] (Or.inr rfl)
      SIGINT (Or.inl rfl)).2.2.2.2.1⟩

/-- C8: the two source files are the same program: the texts of `main` and of
`catcher` are equal, and for every inherited mask and every sequence of call
results, signal deliveries and handler executions the two processes perform
the same operations with the same arguments, enter the same handlers and end
with the same exit status, or killed by the same signal. -/
theorem copies_behave_alike (mask0 : sigset_t) (es : List Event) :
    docker.freeze.main = freeze.main ∧
    (∀ signum, docker.freeze.catcher signum = freeze.catcher signum) ∧
    (exec docker.freeze.program mask0 es).ops = (exec freeze.program mask0 es).ops ∧
    (exec docker.freeze.program mask0 es).entered = (exec freeze.program mask0 es).entered ∧
    (exec docker.freeze.program mask0 es).status = (exec freeze.program mask0 es).status ∧
    (exec docker.freeze.program mask0 es).killed = (exec freeze.program mask0 es).killed := by
  have h : docker.freeze.program = freeze.program := rfl
  rw [h]
  exact ⟨rfl, fun _ => rfl, rfl, rfl, rfl, rfl⟩

/-- C9, as the code has it: both installations succeed, then SIGTERM is
delivered before `main` has reached the `sigsuspend` call; `catcher` exits with
status 0 and `sigsuspend` was never called on that run. -/
theorem sigsuspend_skipped :
    (exec freeze.program [] [.result 0, .returns 0, .deliver SIGTERM, .run]).disp
      = [(SIGTERM, act), (SIGINT, act)] ∧
    (exec freeze.program [] [.result 0, .returns 0, .deliver SIGTERM, .run]).status = some 0 ∧
    (exec freeze.program [] [.result 0, .returns 0, .deliver SIGTERM, .run]).ops
      = [.sigemptyset .act_sa_mask, .sigaction SIGINT act, .sigaction SIGTERM act, .exit 0] ∧
    (exec freeze.program [] [.result 0, .returns 0, .deliver SIGTERM, .run]).ops.filter
      Op.isSigsuspend = [] := by
  decide

/-- C9 amended.  First, on every run in which both installations succeeded and
`main` went on into the wait, the operations performed are, in this order, the
`sigemptyset` for `act.sa_mask`, the two `sigaction` calls, the `sigemptyset` for
`set` and one `sigsuspend` call with the empty set, followed by nothing or by a
single `exit(0)`: `sigsuspend` is called exactly once, and the installed
handlers stay as the two installations left them.  Second, after any sequence
of events at all that leaves both handlers installed: the operations are the
first three of these, followed by nothing, by the `sigemptyset` for `set`, or by
it and one `sigsuspend` call with the empty set, followed by nothing or a single
`exit(0)`; so `sigsuspend` was called at most once, with the empty mask, after
both installations, and there are exactly two `sigaction` calls, none after the
second installation; and if the process has ended without a `sigsuspend` call,
it ended by `catcher`, entered for a delivered signal, exiting with status 0,
or by a signal killing it. -/
theorem wait_called_at_most_once (c : SourceFile) (mask0 : sigset_t) (es : List Event) :
    ((∃ rest, (rest = [] ∨ rest = [Op.exit 0]) ∧
      (exec c.program mask0 (.result 0 :: .result 0 :: es)).ops
        = [.sigemptyset .act_sa_mask, .sigaction SIGINT act, .sigaction SIGTERM act,
           .sigemptyset .set, .sigsuspend []] ++ rest) ∧
     (exec c.program mask0 (.result 0 :: .result 0 :: es)).ops.filter Op.isSigsuspend
      = [.sigsuspend []] ∧
     (exec c.program mask0 (.result 0 :: .result 0 :: es)).disp
      = (exec c.program mask0 [.result 0, .result 0]).disp) ∧
    ((exec c.program mask0 es).disp = [(SIGTERM, act), (SIGINT, act)] →
     (∃ pre rest,
        (pre = [] ∨ pre = [Op.sigemptyset .set] ∨
          pre = [Op.sigemptyset .set, Op.sigsuspend []]) ∧
        (rest = [] ∨ rest = [Op.exit 0]) ∧
        (exec c.program mask0 es).ops
          = [.sigemptyset .act_sa_mask, .sigaction SIGINT act, .sigaction SIGTERM act]
            ++ pre ++ rest) ∧
     ((exec c.program mask0 es).ops.filter Op.isSigsuspend = [] ∨
      (exec c.program mask0 es).ops.filter Op.isSigsuspend = [.sigsuspend []]) ∧
     (exec c.program mask0 es).ops.filter Op.isSigaction
        = [.sigaction SIGINT act, .sigaction SIGTERM act] ∧
     ((exec c.program mask0 es).ops.filter Op.isSigsuspend = [] →
      (exec c.program mask0 es).ended = true →
        ((exec c.program mask0 es).status = some 0 ∧
         (exec c.program mask0 es).entered ≠ []) ∨
        ∃ s, (exec c.program mask0 es).killed = some s)) := by
  have hc : c.program = freeze.program := by cases c <;> rfl
  rw [hc]
  exact ⟨wait_entered mask0 es, wait_general mask0 es⟩

theorem wait_called_at_most_once_witness :
    (exec SourceFile.docker_freeze.program []
      [.result 0, .returns 0, .proceed, .deliver SIGINT, .run]).disp
      = [(SIGTERM, act), (SIGINT, act)] ∧
    (exec SourceFile.docker_freeze.program []
      [.result 0, .returns 0, .proceed, .deliver SIGINT, .run]).ops.filter Op.isSigsuspend
      = [] ∧
    (exec SourceFile.docker_freeze.program []
      [.result 0, .returns 0, .proceed, .deliver SIGINT, .run]).ended = true ∧
    (((exec SourceFile.docker_freeze.program []
        [.result 0, .returns 0, .proceed, .deliver SIGINT, .run]).status = some 0 ∧
      (exec SourceFile.docker_freeze.program []
        [.result 0, .returns 0, .proceed, .deliver SIGINT, .run]).entered ≠ []) ∨
     ∃ s, (exec SourceFile.docker_freeze.program []
        [.result 0, .returns 0, .proceed, .deliver SIGINT, .run]).killed = some s) :=
  ⟨by decide, by decide, by decide,
   ((wait_called_at_most_once .docker_freeze []
      [.result 0, .returns 0, .proceed, .deliver SIGINT, .run]).2 (by decide)).2.2.2
      (by decide) (by decide)⟩

/-- C10: if the `sigaction` call for SIGINT returns non-zero, the process exits
with status 1 and no `sigaction` call for SIGTERM is made; if it returns 0 and
the call for SIGTERM returns non-zero, the process exits with status 1, the
only `sigaction` calls performed are the two installations, and the handler
installed for SIGINT is still `catcher`. -/
theorem install_short_circuit_no_rollback (c : SourceFile) (mask0 : sigset_t) (r1 r2 : Int)
    (es : List Event) :
    (r1 ≠ 0 →
      (exec c.program mask0 (.result r1 :: es)).status = some 1 ∧
      (exec c.program mask0 (.result r1 :: es)).ops
        = [.sigemptyset .act_sa_mask, .sigaction SIGINT act, .exit 1] ∧
      ∀ a, Op.sigaction SIGTERM a ∉ (exec c.program mask0 (.result r1 :: es)).ops) ∧
    (r2 ≠ 0 →
      (exec c.program mask0 (.result 0 :: .result r2 :: es)).status = some 1 ∧
      (exec c.program mask0 (.result 0 :: .result r2 :: es)).ops
        = [.sigemptyset .act_sa_mask, .sigaction SIGINT act, .sigaction SIGTERM act, .exit 1] ∧
      handlerOf (exec c.program mask0 (.result 0 :: .result r2 :: es)).disp SIGINT
        = some act) := by
  have hc : c.program = freeze.program := by cases c <;> rfl
  rw [hc]
  constructor
  · intro h
    rw [exec_sigint_failed mask0 r1 h es]
    refine ⟨rfl, rfl, ?_⟩
    intro a
    simp [SIGINT, SIGTERM]
  · intro h
    rw [exec_sigterm_failed mask0 r2 h es]
    exact ⟨rfl, rfl, rfl⟩

theorem install_short_circuit_no_rollback_witness :
    ((7 : Int) ≠ 0 ∧
      (exec SourceFile.docker_freeze.program [] [.result 7, .result 0, .result 0]).ops
        = [.sigemptyset .act_sa_mask, .sigaction SIGINT act, .exit 1]) ∧
    ((-1 : Int) ≠ 0 ∧
      handlerOf (exec SourceFile.docker_freeze.program []
        [.result 0, .result (-1), .run]).disp SIGINT = some act) :=
  ⟨⟨by decide,
    ((install_short_circuit_no_rollback .docker_freeze [] 7 (-1) [.result 0, .result 0]).1
      (by decide)).2.1⟩,
   ⟨by decide,
    ((install_short_circuit_no_rollback .docker_freeze [] 7 (-1) [.run]).2 (by decide)).2.2⟩⟩

end dockeroo
